import Mathlib

/-!
Verification of libane (src/libane/ane.c).

Shallow embedding of the buffer-object manager, channel-set
initialization, model loader and the tiling transform, together with
theorems settling the specification's claims.  Buffers are modelled as
functions from byte (or element) offsets to values; device state is
explicit and threaded through every operation; fallible ioctl and mmap
calls are driven by an explicit failure oracle.

Constants that live in the repository's missing headers (ane.h,
drm_ane.h) are modelled from the spec and marked as such.
-/

namespace Ane

/-- sizeof(uint16_t): the element size of the dense/tiled tensors. -/
def elemSize : Nat := 2

/-- TILE_SHIFT from ane.c (0xEUL = 14). -/
def TILE_SHIFT : Nat := 0xE

/-- TILE_SIZE from ane.c (0x4000UL = 16 KiB). -/
def TILE_SIZE : Nat := 0x4000

/-- ANEC_SIZE from ane.c (0x1000): byte offset of the payload in a model file. -/
def ANEC_SIZE : Nat := 0x1000

/-- Modelled from the spec: ANE_TILE_COUNT lives in the missing header ane.h;
the spec fixes the channel table at absolute indices 0..63, i.e. 64 entries. -/
def ANE_TILE_COUNT : Nat := 64

/-- Modelled from the spec: ANE_FIFO_NID lives in the missing header ane.h.
The spec describes it only as the reserved 8-bit FIFO node identifier stamped
into bits 16-23; the numeric value below is a stand-in and no theorem in this
file depends on it beyond its being an 8-bit quantity. -/
def ANE_FIFO_NID : Nat := 0x40

/-- tile_shift(x) from ane.c: ((uint64_t)(x)) << TILE_SHIFT, in uint64 arithmetic. -/
def tile_shift (x : Nat) : Nat := (x <<< TILE_SHIFT) % 2 ^ 64

/-- tile_align(x) from ane.c: (((uint64_t)(x)) + TILE_SIZE - 1) & -TILE_SIZE,
in uint64 arithmetic (-TILE_SIZE as uint64 is 2^64 - TILE_SIZE). -/
def tile_align (x : Nat) : Nat := ((x + TILE_SIZE - 1) % 2 ^ 64) &&& (2 ^ 64 - TILE_SIZE)

/-- src_bdx(nn, idx) from ane.c: 4 + dst_count + idx. -/
def src_bdx (dst_count idx : Nat) : Nat := 4 + dst_count + idx

/-- dst_bdx(nn, idx) from ane.c: 4 + idx. -/
def dst_bdx (idx : Nat) : Nat := 4 + idx

/-- memcpy on buffers modelled as functions from offsets to values:
copy len cells from src starting at sOff into dst starting at dOff. -/
def memcpyEl (dst src : Nat → Nat) (dOff sOff len : Nat) : Nat → Nat :=
  fun i => if dOff ≤ i ∧ i < dOff + len then src (sOff + (i - dOff)) else dst i

/-- memset(buf, 0, len) on an offset-indexed buffer. -/
def zeroFill (buf : Nat → Nat) (len : Nat) : Nat → Nat :=
  fun i => if i < len then 0 else buf i

/-- Read the little-endian 32-bit word at byte offset off of a byte buffer. -/
def le32At (buf : Nat → Nat) (off : Nat) : Nat :=
  buf off % 256 + 256 * (buf (off + 1) % 256) + 65536 * (buf (off + 2) % 256) +
    16777216 * (buf (off + 3) % 256)

/-- Write the 32-bit word w back as four little-endian bytes at offset off. -/
def writeLe32At (buf : Nat → Nat) (off w : Nat) : Nat → Nat :=
  fun i =>
    if i = off then w % 256
    else if i = off + 1 then w / 256 % 256
    else if i = off + 2 then w / 65536 % 256
    else if i = off + 3 then w / 16777216 % 256
    else buf i

/-- The pure word transform inside set_nid from ane.c:
hdr0 = (hdr0 & 0xf00ffff) | ((nid & 0xff) << 16). -/
def set_nid_word (hdr0 nid : Nat) : Nat :=
  (hdr0 &&& 0xf00ffff) ||| ((nid &&& 0xff) <<< 16)

/-- set_nid(td, nid) from ane.c: load the first 32-bit word of the task
descriptor, transform it, and store it back (little-endian byte buffer). -/
def set_nid (td : Nat → Nat) (nid : Nat) : Nat → Nat :=
  writeLe32At td 0 (set_nid_word (le32At td 0) nid)

/-- set_btsp_and_command(nn) from ane.c, at the level of buffer contents:
copy anec->size bytes of the task program into channel 0's mapping, copy
anec->td_size bytes into the bootstrap mapping, then stamp the FIFO node id
into the bootstrap copy's first word.  Returns (chan0', btsp'). -/
def set_btsp_and_command (data : Nat → Nat) (size td_size : Nat)
    (chan0 btsp : Nat → Nat) : (Nat → Nat) × (Nat → Nat) :=
  (memcpyEl chan0 data 0 0 size,
   set_nid (memcpyEl btsp data 0 0 td_size) ANE_FIFO_NID)

/-- __ane_send(nn, from, idx) from ane.c, at the level of channel contents:
memcpy tile_size(nn, src_bdx(nn, idx)) bytes of from into the mapping of
channel src_bdx(nn, idx); all other channel mappings are untouched. -/
def __ane_send (chans : Nat → Nat → Nat) (tiles : Nat → Nat) (dst_count : Nat)
    (src : Nat → Nat) (idx : Nat) : Nat → Nat → Nat :=
  fun b =>
    if b = src_bdx dst_count idx then
      memcpyEl (chans b) src 0 0 (tile_shift (tiles (src_bdx dst_count idx)))
    else chans b

/-! ## Device, buffer-object and channel-set state machine (from ane.c)

The device is modelled with an explicit state: a fresh-handle counter, the
multiset of live device-side allocations, an ordered log of the alloc / free
ioctl calls and mmap / munmap calls issued, and counters of the BO_INIT ioctl
and mmap calls made so far.  An Oracle decides which BO_INIT ioctl or mmap
call fails, by its position in that sequence. -/

/-- struct ane_bo from ane.c (declared in the missing ane.h, per the spec's
Buffer Object description): requested size, device handle, device offset and
whether a host mapping is live (the map pointer, as a flag). A zeroed struct
(the uninitialized state) is the default value. -/
structure Bo where
  size : Nat := 0
  handle : Nat := 0
  offset : Nat := 0
  map : Bool := false
deriving Repr, DecidableEq

/-- Observable device-interface events: a successful BO_INIT ioctl returning a
handle, a BO_FREE ioctl on a handle, and the mmap / munmap calls. -/
inductive Event where
  | alloc (h : Nat)
  | free (h : Nat)
  | mmap (h : Nat)
  | munmap (h : Nat)
deriving Repr, DecidableEq

/-- Device-side state threaded through every call: fresh-handle counter, the
multiset of live allocations, the event log, and how many BO_INIT ioctl and
mmap calls happened so far (the failure oracle is indexed by these). -/
structure Dev where
  ctr : Nat := 1
  live : Multiset Nat := 0
  log : List Event := []
  ioctlCount : Nat := 0
  mmapCount : Nat := 0
deriving DecidableEq

/-- Failure oracle: whether the t-th BO_INIT ioctl, or the t-th mmap call,
fails. The kernel and libc are outside the repository, so which call fails is
an input of the model. -/
structure Oracle where
  allocFail : Nat → Bool
  mmapFail : Nat → Bool

/-- bo_init from ane.c: the DRM_IOCTL_ANE_BO_INIT ioctl. On success the kernel
returns a fresh handle and offset; on failure the zero-initialized args stay
zero and the error is returned. -/
def bo_init (o : Oracle) (d : Dev) (bo : Bo) : Dev × Bo × Int :=
  if o.allocFail d.ioctlCount then
    ({ d with ioctlCount := d.ioctlCount + 1 },
     { bo with handle := 0, offset := 0 }, -22)
  else
    ({ d with
        ctr := d.ctr + 1
        live := Multiset.cons d.ctr d.live
        log := d.log ++ [Event.alloc d.ctr]
        ioctlCount := d.ioctlCount + 1 },
     { bo with handle := d.ctr, offset := d.ctr }, 0)

/-- bo_free from ane.c: the DRM_IOCTL_ANE_BO_FREE ioctl on bo.handle. -/
def bo_free (d : Dev) (bo : Bo) : Dev × Int :=
  ({ d with
      live := d.live.erase bo.handle
      log := d.log ++ [Event.free bo.handle] }, 0)

/-- bo_mmap from ane.c: mmap the buffer; on MAP_FAILED set bo->map = NULL and
return -EINVAL. -/
def bo_mmap (o : Oracle) (d : Dev) (bo : Bo) : Dev × Bo × Int :=
  if o.mmapFail d.mmapCount then
    ({ d with mmapCount := d.mmapCount + 1 }, { bo with map := false }, -22)
  else
    ({ d with
        mmapCount := d.mmapCount + 1
        log := d.log ++ [Event.mmap bo.handle] },
     { bo with map := true }, 0)

/-- ane_bo_init from ane.c: reject a zero size with -EINVAL, allocate, then
map; on a map failure free the allocation; on either failure zero the handle
and offset before returning the error. -/
def ane_bo_init (o : Oracle) (d : Dev) (bo : Bo) : Dev × Bo × Int :=
  if bo.size = 0 then (d, bo, -22)
  else
    let (d1, bo1, err) := bo_init o d bo
    if err < 0 then (d1, { bo1 with handle := 0, offset := 0 }, err)
    else
      let (d2, bo2, err2) := bo_mmap o d1 bo1
      if err2 < 0 then
        let (d3, _) := bo_free d2 bo2
        (d3, { bo2 with handle := 0, offset := 0 }, err2)
      else (d2, bo2, 0)

/-- ane_bo_free from ane.c: if the BO is mapped, munmap it and then free the
device-side allocation; in all cases clear the map field. -/
def ane_bo_free (d : Dev) (bo : Bo) : Dev × Bo :=
  if bo.map then
    let d1 := { d with log := d.log ++ [Event.munmap bo.handle] }
    let (d2, _) := bo_free d1 bo
    (d2, { bo with map := false })
  else (d, { bo with map := false })

/-- Modelled from the spec: struct anec is declared in the missing ane.h. The
spec gives its fields: total payload size, task sizes and counts, source and
destination channel counts, and the 64-entry tile-size table (the per-channel
nchw table is modelled separately where the tiling claims need it). -/
structure Anec where
  size : Nat := 0
  tsk_size : Nat := 0
  td_size : Nat := 0
  td_count : Nat := 0
  src_count : Nat := 0
  dst_count : Nat := 0
  tiles : Fin ANE_TILE_COUNT → Nat := fun _ => 0

/-- struct ane_nn from ane.c (declared in the missing ane.h): the per-channel
BOs and the bootstrap BO. Buffer contents are modelled separately (set_nid,
set_btsp_and_command, __ane_send above). -/
structure NN where
  chans : Fin ANE_TILE_COUNT → Bo
  btsp : Bo

/-- The zeroed ane_nn that __ane_init_from_model passes to ane_chan_init
(it comes from ane_zmalloc). -/
def nn0 : NN := ⟨fun _ => {}, {}⟩

/-- The channel loop of ane_chan_init from ane.c: for every index with a
non-zero tile size, set bo->size = tile_size(nn, bdx) and allocate + map it,
aborting on the first failure. -/
def chan_init_loop (o : Oracle) (anec : Anec) :
    List (Fin ANE_TILE_COUNT) → Dev → (Fin ANE_TILE_COUNT → Bo) →
      Dev × (Fin ANE_TILE_COUNT → Bo) × Int
  | [], d, chans => (d, chans, 0)
  | bdx :: rest, d, chans =>
    if anec.tiles bdx ≠ 0 then
      let r := ane_bo_init o d { chans bdx with size := tile_shift (anec.tiles bdx) }
      let chans1 := Function.update chans bdx r.2.1
      if r.2.2 < 0 then (r.1, chans1, r.2.2)
      else chan_init_loop o anec rest r.1 chans1
    else chan_init_loop o anec rest d chans

/-- One iteration of the loop in ane_chan_free from ane.c. -/
def free_step (p : Dev × (Fin ANE_TILE_COUNT → Bo)) (bdx : Fin ANE_TILE_COUNT) :
    Dev × (Fin ANE_TILE_COUNT → Bo) :=
  ((ane_bo_free p.1 (p.2 bdx)).1, Function.update p.2 bdx (ane_bo_free p.1 (p.2 bdx)).2)

/-- ane_chan_free from ane.c: release the bootstrap BO, then every channel BO
in index order (ane_bo_free ignores the never-mapped ones). -/
def ane_chan_free (d : Dev) (nn : NN) : Dev × NN :=
  let q := ane_bo_free d nn.btsp
  let p := (List.finRange ANE_TILE_COUNT).foldl free_step (q.1, nn.chans)
  (p.1, ⟨p.2, q.2⟩)

/-- ane_chan_init from ane.c: run the channel loop, then allocate + map the
bootstrap BO sized tile_align(anec->td_size); on any failure call
ane_chan_free on the whole nn and return the error. The final
set_btsp_and_command call only writes buffer contents, which this state
machine does not carry; the contents are modelled by set_btsp_and_command
above. -/
def ane_chan_init (o : Oracle) (anec : Anec) (d : Dev) (nn : NN) : Dev × NN × Int :=
  let r := chan_init_loop o anec (List.finRange ANE_TILE_COUNT) d nn.chans
  if r.2.2 < 0 then
    let p := ane_chan_free r.1 ⟨r.2.1, nn.btsp⟩
    (p.1, p.2, r.2.2)
  else
    let r2 := ane_bo_init o r.1 { nn.btsp with size := tile_align anec.td_size }
    if r2.2.2 < 0 then
      let p := ane_chan_free r2.1 ⟨r.2.1, r2.2.1⟩
      (p.1, p.2, r2.2.2)
    else (r2.1, ⟨r.2.1, r2.2.1⟩, 0)

/-- An oracle under which every allocation and mapping succeeds. -/
def noFailOracle : Oracle := ⟨fun _ => false, fun _ => false⟩

/-- A small concrete descriptor with one present channel, used by witnesses. -/
def anecEx : Anec :=
  { td_size := 0x100
    tiles := fun b => if b.val = 4 then 1 else 0 }

/-- The multiset of handles returned by successful BO_INIT ioctl calls in a
stretch of the event log. -/
def allocsOf (l : List Event) : Multiset Nat :=
  ↑(l.filterMap fun e => match e with | Event.alloc h => some h | _ => none)

/-- The multiset of handles passed to BO_FREE ioctl calls in a stretch of the
event log. -/
def freesOf (l : List Event) : Multiset Nat :=
  ↑(l.filterMap fun e => match e with | Event.free h => some h | _ => none)

/-- The multiset of handles of the currently mapped channel BOs among the
indices in l. -/
def mappedOver (l : List (Fin ANE_TILE_COUNT)) (chans : Fin ANE_TILE_COUNT → Bo) :
    Multiset Nat :=
  ↑((l.filter fun b => (chans b).map).map fun b => (chans b).handle)

/-- The oracle that makes exactly one call fail: the k-th mmap call when kind
is true, the k-th BO_INIT ioctl when kind is false. -/
def failAt (kind : Bool) (k : Nat) : Oracle :=
  ⟨fun t => !kind && decide (t = k), fun t => kind && decide (t = k)⟩

/-- How many of the indices in l have a non-zero tile size. -/
def presentCount (anec : Anec) (l : List (Fin ANE_TILE_COUNT)) : Nat :=
  (l.filter fun b => decide (anec.tiles b ≠ 0)).length

/-! ## Tiling transform (claims C1, C9)

ane_tile / ane_untile from ane.c, modelled at element (uint16) granularity:
every byte offset and length in the source is 2 * (an element count), so the
transforms are stated on element-indexed buffers; the nested loops become
nested folds over List.range and each memcpy of stride = W * sizeof(uint16)
bytes becomes a memcpyEl of W elements. -/

/-- ane_tile from ane.c: for every (n, c, h) with h < H copy W elements
(stride = W * sizeof(uint16_t) bytes) from the dense row into the padded
row at strides new_H = P / R, new_W = R / sizeof(uint16_t). -/
def ane_tile (data tile : Nat → Nat) (N C H W P R : Nat) : Nat → Nat :=
  let new_H := P / R
  let new_W := R / 2
  (List.range N).foldl (fun buf n =>
    (List.range C).foldl (fun buf c =>
      (List.range H).foldl (fun buf h =>
        memcpyEl buf data
          (n * (C * new_H * new_W) + c * (new_H * new_W) + h * new_W)
          (n * (C * H * W) + c * (H * W) + h * W) W) buf) buf) tile

/-- ane_untile from ane.c: memset the dense buffer's N*C*H*W elements to zero,
then for every (n, c, h) with h < H copy W elements from the padded row into
the dense row. -/
def ane_untile (data tile : Nat → Nat) (N C H W P R : Nat) : Nat → Nat :=
  let new_H := P / R
  let new_W := R / 2
  (List.range N).foldl (fun buf n =>
    (List.range C).foldl (fun buf c =>
      (List.range H).foldl (fun buf h =>
        memcpyEl buf tile
          (n * (C * H * W) + c * (H * W) + h * W)
          (n * (C * new_H * new_W) + c * (new_H * new_W) + h * new_W) W) buf) buf)
    (zeroFill data (N * C * H * W))

/-- The common shape of both tiling loops: one memcpyEl of len elements per
(destination offset, source offset) pair, in order. -/
def copyRows (src : Nat → Nat) (len : Nat) (rows : List (Nat × Nat))
    (buf : Nat → Nat) : Nat → Nat :=
  rows.foldl (fun b r => memcpyEl b src r.1 r.2 len) buf

/-- Element offset of row (n, c, h) in a buffer whose planes are hh x ww:
n*(C*hh*ww) + c*(hh*ww) + h*ww, as in the source's index expressions. -/
def rowOff (C hh ww n c h : Nat) : Nat :=
  n * (C * hh * ww) + c * (hh * ww) + h * ww

/-- The (destination offset, source offset) pairs visited by the three nested
loops, in loop order. -/
def rows3 (N C H : Nat) (f g : Nat → Nat → Nat → Nat) : List (Nat × Nat) :=
  (List.range N).flatMap fun n =>
    (List.range C).flatMap fun c =>
      (List.range H).map fun h => (f n c h, g n c h)

/-! ## Model loader (ane_fread / ane_pread / ane_model_init from ane.c)

A file is modelled as its byte contents, or none when fopen fails; fread
copies min(size, length) bytes and the helpers only log a short transfer.
Heap allocation (ane_zmalloc / ane_zmemalign) is modelled as always
succeeding and, being the z-variants, as returning zero-filled buffers. -/

/-- Modelled from the spec: sizeof(struct anec), the byte count ane_model_init
reads into the header struct. The struct is declared in the missing ane.h;
the spec only fixes that the header slot of the file is padded to ANEC_SIZE
(0x1000) bytes, so the struct is modelled as filling that slot. -/
def sizeof_anec : Nat := 0x1000

/-- fread(data, 1, size, fp) on an open file: copy min(size, remaining) bytes
into the buffer and return how many were copied. -/
def freadBytes (bytes : List Nat) (data : Nat → Nat) (size : Nat) : (Nat → Nat) × Nat :=
  (fun i => if i < min size bytes.length then bytes.getD i 0 else data i,
   min size bytes.length)

/-- ane_fread from ane.c: -EINVAL when fopen fails; otherwise read up to size
bytes from the start of the file, only logging a short read, and return 0. -/
def ane_fread (file : Option (List Nat)) (data : Nat → Nat) (size : Nat) :
    (Nat → Nat) × Int :=
  match file with
  | none => (data, -22)
  | some bytes => ((freadBytes bytes data size).1, 0)

/-- ane_pread from ane.c: -EINVAL when fopen or fseek fails; otherwise read up
to size bytes starting at offset, only logging a short read, and return 0. -/
def ane_pread (file : Option (List Nat)) (data : Nat → Nat) (size offset : Nat)
    (seekOk : Bool) : (Nat → Nat) × Int :=
  match file with
  | none => (data, -22)
  | some bytes =>
    if !seekOk then (data, -22)
    else ((freadBytes (bytes.drop offset) data size).1, 0)

/-- struct ane_model from ane.c (declared in the missing ane.h): the header
struct region as raw bytes, the payload buffer, and the payload size decoded
from the header, which ane_model_init uses to size the payload buffer. -/
structure AneModel where
  anecBytes : Nat → Nat
  data : Nat → Nat
  size : Nat

/-- Modelled from the spec: the header layout lives in the missing ane.h; the
spec lists the total payload size first, so anec->size is read as the
little-endian 64-bit word at byte offset 0 of the header region. -/
def le64At (buf : Nat → Nat) (off : Nat) : Nat :=
  buf off % 256 + 2 ^ 8 * (buf (off + 1) % 256) + 2 ^ 16 * (buf (off + 2) % 256) +
    2 ^ 24 * (buf (off + 3) % 256) + 2 ^ 32 * (buf (off + 4) % 256) +
    2 ^ 40 * (buf (off + 5) % 256) + 2 ^ 48 * (buf (off + 6) % 256) +
    2 ^ 56 * (buf (off + 7) % 256)

/-- ane_model_init from ane.c: zero-allocate the model container, read the
header struct (ane_fread), zero-allocate the tile-aligned payload buffer of
anec->size bytes (ane_zmemalign), and read the payload from offset ANEC_SIZE
(ane_pread); heap allocation is modelled as always succeeding. -/
def ane_model_init (file : Option (List Nat)) (seekOk : Bool) : Option AneModel :=
  let r1 := ane_fread file (fun _ => 0) sizeof_anec
  if r1.2 < 0 then none
  else
    let sz := le64At r1.1 0
    let r2 := ane_pread file (fun _ => 0) sz ANEC_SIZE seekOk
    if r2.2 < 0 then none
    else some ⟨r1.1, r2.1, sz⟩

/-! ## Theorems -/

/-! ## Bit-level facts about set_nid (claim C2) -/

lemma le32At_writeLe32At (buf : Nat → Nat) (w : Nat) :
    le32At (writeLe32At buf 0 w) 0 = w % 2 ^ 32 := by
  simp only [le32At, writeLe32At]
  norm_num
  omega

lemma le32At_memcpy (btsp data : Nat → Nat) (n : Nat) (h : 4 ≤ n) :
    le32At (memcpyEl btsp data 0 0 n) 0 = le32At data 0 := by
  simp only [le32At, memcpyEl]
  rw [if_pos (by omega), if_pos (by omega), if_pos (by omega), if_pos (by omega)]

lemma set_nid_word_lt (w nid : Nat) : set_nid_word w nid < 2 ^ 32 := by
  have h1 : w &&& 0xf00ffff ≤ 0xf00ffff := Nat.and_le_right
  have h2 : (nid &&& 0xff) <<< 16 = (nid &&& 0xff) * 2 ^ 16 := Nat.shiftLeft_eq _ _
  have h3 : nid &&& 0xff ≤ 0xff := Nat.and_le_right
  exact Nat.or_lt_two_pow (by omega) (by omega)

lemma mask_bit_eval (b : Nat) :
    (0xf00ffff : Nat).testBit b = (decide (b < 16) || (decide (24 ≤ b) && decide (b < 28))) := by
  rcases Nat.lt_or_ge b 32 with h | h
  · have hall : ∀ b < 32, (0xf00ffff : Nat).testBit b =
        (decide (b < 16) || (decide (24 ≤ b) && decide (b < 28))) := by decide
    exact hall b h
  · rw [Nat.testBit_eq_false_of_lt
      (lt_of_lt_of_le (by norm_num) (Nat.pow_le_pow_right (by norm_num) h))]
    simp [show ¬ b < 16 by omega, show ¬ b < 28 by omega]

lemma ff_bit_eval (b : Nat) : (0xff : Nat).testBit b = decide (b < 8) := by
  rcases Nat.lt_or_ge b 8 with h | h
  · have hall : ∀ b < 8, (0xff : Nat).testBit b = decide (b < 8) := by decide
    exact hall b h
  · rw [Nat.testBit_eq_false_of_lt
      (lt_of_lt_of_le (by norm_num) (Nat.pow_le_pow_right (by norm_num) h))]
    simp [show ¬ b < 8 by omega]

/-- Pointwise description of the word transform of set_nid: bits 16-23 come
from the node id, bits 0-15 and 24-27 from the original word, bits from 28 up
are cleared (the source masks with 0xf00ffff, which keeps only bits 24-27 of
the high byte). -/
lemma snw_testBit (w nid b : Nat) :
    (set_nid_word w nid).testBit b =
      if 16 ≤ b ∧ b < 24 then nid.testBit (b - 16)
      else if b < 16 ∨ (24 ≤ b ∧ b < 28) then w.testBit b
      else false := by
  simp only [set_nid_word, Nat.testBit_or, Nat.testBit_and, Nat.testBit_shiftLeft,
    mask_bit_eval, ff_bit_eval]
  split_ifs with h1 h2
  · obtain ⟨hA, hB⟩ := h1
    simp [hA, show ¬(b < 16) by omega, show ¬(24 ≤ b) by omega, show b - 16 < 8 by omega]
  · rcases h2 with hb | ⟨hA, hB⟩
    · simp [hb, show ¬(16 ≤ b) by omega]
    · simp [hA, hB, show ¬(b < 16) by omega, show 16 ≤ b by omega,
        show ¬(b - 16 < 8) by omega]
  · simp [show ¬(b < 16) by omega, show ¬(b < 28) by omega, show 16 ≤ b by omega,
      show ¬(b - 16 < 8) by omega]

lemma btsp_word0 (data chan0 btsp : Nat → Nat) (size td_size : Nat) (h4 : 4 ≤ td_size) :
    le32At (set_btsp_and_command data size td_size chan0 btsp).2 0 =
      set_nid_word (le32At data 0) ANE_FIFO_NID := by
  show le32At (set_nid (memcpyEl btsp data 0 0 td_size) ANE_FIFO_NID) 0 = _
  rw [set_nid, le32At_writeLe32At, le32At_memcpy _ _ _ h4,
    Nat.mod_eq_of_lt (set_nid_word_lt _ _)]

/-- C2 (amended): after the bootstrap copy of set_btsp_and_command, the first
32-bit word of the bootstrap buffer has bits 16-23 equal to the FIFO node
identifier and bits 0-15 and 24-27 equal to the corresponding bits of the task
program's first word; bits 28-31, however, are cleared rather than preserved,
because set_nid masks the original word with 0xf00ffff. -/
theorem claim_C2_bootstrap_stamp (data chan0 btsp : Nat → Nat) (size td_size : Nat)
    (h4 : 4 ≤ td_size) :
    (∀ b, 16 ≤ b → b < 24 →
      (le32At (set_btsp_and_command data size td_size chan0 btsp).2 0).testBit b =
        ANE_FIFO_NID.testBit (b - 16)) ∧
    (∀ b, b < 16 ∨ (24 ≤ b ∧ b < 28) →
      (le32At (set_btsp_and_command data size td_size chan0 btsp).2 0).testBit b =
        (le32At data 0).testBit b) ∧
    (∀ b, 28 ≤ b →
      (le32At (set_btsp_and_command data size td_size chan0 btsp).2 0).testBit b = false) := by
  refine ⟨fun b hb1 hb2 => ?_, fun b hb => ?_, fun b hb => ?_⟩ <;>
    rw [btsp_word0 data chan0 btsp size td_size h4, snw_testBit]
  · rw [if_pos ⟨hb1, hb2⟩]
  · rw [if_neg (by omega), if_pos hb]
  · rw [if_neg (by omega), if_neg (by omega)]

/-- Witness for C2: a concrete run of the amended theorem. -/
theorem claim_C2_witness :
    (le32At (set_btsp_and_command (fun _ => 0) 4 4 (fun _ => 0) (fun _ => 0)).2 0).testBit 16 =
      ANE_FIFO_NID.testBit 0 :=
  (claim_C2_bootstrap_stamp (fun _ => 0) (fun _ => 0) (fun _ => 0) 4 4 (by decide)).1 16
    (by decide) (by decide)

/-- Counterexample to C2 as stated: the claim says every bit outside 16-23 of
the bootstrap buffer's first word equals the corresponding bit of the task
program's first word, but for a task program whose first word is 0x10000000
(bit 28 set) the stamped word has bit 28 cleared. -/
theorem claim_C2_counterexample :
    (le32At (set_btsp_and_command (fun i => if i = 3 then 0x10 else 0) 4 4
        (fun _ => 0) (fun _ => 0)).2 0).testBit 28 = false ∧
      (le32At (fun i => if i = 3 then 0x10 else 0) 0).testBit 28 = true := by
  decide

/-! ## Channel-index arithmetic and __ane_send (claim C5) -/

/-- C5: destination index i addresses absolute channel 4+i, source index j
addresses absolute channel 4+dst_count+j, destination and source indices never
collide, neither lands in the reserved range 0..3, and __ane_send with a source
index copies into exactly that absolute channel's mapping and touches no other. -/
theorem claim_C5_channel_index (d s i j : Nat) (hi : i < d) (hj : j < s) :
    dst_bdx i = 4 + i ∧ src_bdx d j = 4 + d + j ∧
    (∀ i' j', i' < d → j' < s → dst_bdx i' ≠ src_bdx d j') ∧
    4 ≤ dst_bdx i ∧ 4 ≤ src_bdx d j ∧
    (∀ chans tiles src b, b ≠ src_bdx d j →
      __ane_send chans tiles d src j b = chans b) ∧
    (∀ chans tiles src,
      __ane_send chans tiles d src j (src_bdx d j) =
        memcpyEl (chans (src_bdx d j)) src 0 0 (tile_shift (tiles (src_bdx d j)))) := by
  refine ⟨rfl, rfl, fun i' j' hi' hj' => ?_, by simp [dst_bdx], by simp [src_bdx]; omega,
    fun chans tiles src b hb => ?_, fun chans tiles src => ?_⟩
  · simp only [dst_bdx, src_bdx]
    omega
  · simp only [__ane_send, if_neg hb]
  · simp [__ane_send]

/-- Witness for C5 at a concrete channel-count pair. -/
theorem claim_C5_witness :
    dst_bdx 0 = 4 + 0 ∧ src_bdx 1 0 = 4 + 1 + 0 := by
  have h := claim_C5_channel_index 1 1 0 0 (by decide) (by decide)
  exact ⟨h.1, h.2.1⟩

lemma foldl_flatMap {α β γ : Type} (g : α → List β) (f : γ → β → γ) (l : List α)
    (init : γ) :
    (l.flatMap g).foldl f init = l.foldl (fun b a => (g a).foldl f b) init := by
  induction l generalizing init with
  | nil => rfl
  | cons a t ih => simp [List.flatMap_cons, List.foldl_append, ih]

lemma ane_tile_eq (data tile : Nat → Nat) (N C H W P R : Nat) :
    ane_tile data tile N C H W P R =
      copyRows data W (rows3 N C H (rowOff C (P / R) (R / 2)) (rowOff C H W)) tile := by
  simp [ane_tile, copyRows, rows3, foldl_flatMap, List.foldl_map, rowOff]

lemma ane_untile_eq (data tile : Nat → Nat) (N C H W P R : Nat) :
    ane_untile data tile N C H W P R =
      copyRows tile W (rows3 N C H (rowOff C H W) (rowOff C (P / R) (R / 2)))
        (zeroFill data (N * C * H * W)) := by
  simp [ane_untile, copyRows, rows3, foldl_flatMap, List.foldl_map, rowOff]

lemma copyRows_notin (src : Nat → Nat) (len : Nat) (rows : List (Nat × Nat))
    (buf : Nat → Nat) (i : Nat)
    (h : ∀ r ∈ rows, ¬(r.1 ≤ i ∧ i < r.1 + len)) :
    copyRows src len rows buf i = buf i := by
  induction rows generalizing buf with
  | nil => rfl
  | cons a t ih =>
    have ha := h a (List.mem_cons_self a t)
    rw [copyRows, List.foldl_cons, ← copyRows, ih _ (fun r hr => h r (List.mem_cons_of_mem a hr))]
    simp [memcpyEl, ha]

lemma copyRows_covered (src : Nat → Nat) (len : Nat) (rows : List (Nat × Nat))
    (buf : Nat → Nat) (i : Nat) (r : Nat × Nat) (hmem : r ∈ rows)
    (hcov : r.1 ≤ i ∧ i < r.1 + len)
    (huniq : ∀ r' ∈ rows, r'.1 ≤ i → i < r'.1 + len → r' = r) :
    copyRows src len rows buf i = src (r.2 + (i - r.1)) := by
  induction rows generalizing buf with
  | nil => cases hmem
  | cons a t ih =>
    rw [copyRows, List.foldl_cons, ← copyRows]
    by_cases hrt : r ∈ t
    · exact ih _ hrt (fun r' hr' => huniq r' (List.mem_cons_of_mem a hr'))
    · have hra : r = a := by
        rcases List.mem_cons.1 hmem with h | h
        · exact h
        · exact absurd h hrt
      subst hra
      have hnone : ∀ r' ∈ t, ¬(r'.1 ≤ i ∧ i < r'.1 + len) := by
        intro r' hr' hcov'
        exact hrt (huniq r' (List.mem_cons_of_mem _ hr') hcov'.1 hcov'.2 ▸ hr')
      rw [copyRows_notin _ _ _ _ _ hnone]
      simp [memcpyEl, hcov]

lemma mem_rows3 {N C H : Nat} {f g : Nat → Nat → Nat → Nat} {n c h : Nat}
    (hn : n < N) (hc : c < C) (hh : h < H) :
    (f n c h, g n c h) ∈ rows3 N C H f g := by
  simp only [rows3, List.mem_flatMap, List.mem_map, List.mem_range]
  exact ⟨n, hn, c, hc, h, hh, rfl⟩

lemma mem_rows3_inv {N C H : Nat} {f g : Nat → Nat → Nat → Nat} {r : Nat × Nat}
    (hr : r ∈ rows3 N C H f g) :
    ∃ n c h, n < N ∧ c < C ∧ h < H ∧ r = (f n c h, g n c h) := by
  simp only [rows3, List.mem_flatMap, List.mem_map, List.mem_range] at hr
  obtain ⟨n, hn, c, hc, h, hh, he⟩ := hr
  exact ⟨n, c, h, hn, hc, hh, he.symm⟩

lemma rowOff_eq_mul (C hh ww n c h : Nat) :
    rowOff C hh ww n c h = ((n * C + c) * hh + h) * ww := by
  simp only [rowOff]; ring

lemma div_decomp_unique {a a' b b' m : Nat} (hb : b < m) (hb' : b' < m)
    (h : a * m + b = a' * m + b') : a = a' ∧ b = b' := by
  have hm : 0 < m := Nat.pos_of_ne_zero (by rintro rfl; omega)
  have h1 : (a * m + b) / m = a := by
    rw [show a * m + b = m * a + b by ring, Nat.mul_add_div hm, Nat.div_eq_of_lt hb,
      Nat.add_zero]
  have h2 : (a' * m + b') / m = a' := by
    rw [show a' * m + b' = m * a' + b' by ring, Nat.mul_add_div hm, Nat.div_eq_of_lt hb',
      Nat.add_zero]
  have haa : a = a' := by rw [← h1, ← h2, h]
  refine ⟨haa, ?_⟩
  subst haa
  omega

lemma rowOff_unique {C hh ww N H W n c h n' c' h' w : Nat}
    (hH : H ≤ hh) (hW : W ≤ ww)
    (hn : n < N) (hc : c < C) (hhn : h < H)
    (hn' : n' < N) (hc' : c' < C) (hh' : h' < H) (hw : w < W)
    (hcov1 : rowOff C hh ww n' c' h' ≤ rowOff C hh ww n c h + w)
    (hcov2 : rowOff C hh ww n c h + w < rowOff C hh ww n' c' h' + W) :
    n' = n ∧ c' = c ∧ h' = h := by
  have hww : 0 < ww := by omega
  rw [rowOff_eq_mul, rowOff_eq_mul] at hcov1 hcov2
  set q := (n * C + c) * hh + h with hq
  set q' := (n' * C + c') * hh + h' with hq'
  have hqq : q = q' := by
    have l1 : q' < q + 1 := by
      have : q' * ww < (q + 1) * ww := by
        calc q' * ww ≤ q * ww + w := hcov1
          _ < (q + 1) * ww := by have : (q + 1) * ww = q * ww + ww := by ring
                                 omega
      exact Nat.lt_of_mul_lt_mul_right this
    have l2 : q < q' + 1 := by
      have : q * ww < (q' + 1) * ww := by
        have e : (q' + 1) * ww = q' * ww + ww := by ring
        omega
      exact Nat.lt_of_mul_lt_mul_right this
    omega
  simp only [hq, hq'] at hqq
  have e1 := div_decomp_unique (lt_of_lt_of_le hhn hH) (lt_of_lt_of_le hh' hH) hqq
  have e2 := div_decomp_unique hc hc' e1.1
  exact ⟨e2.1.symm, e2.2.symm, e1.2.symm⟩

lemma tile_at (data tile : Nat → Nat) (N C H W P R : Nat)
    (hH : H ≤ P / R) (hW : W ≤ R / 2) (n c h w : Nat)
    (hn : n < N) (hc : c < C) (hh : h < H) (hw : w < W) :
    ane_tile data tile N C H W P R (rowOff C (P / R) (R / 2) n c h + w) =
      data (rowOff C H W n c h + w) := by
  rw [ane_tile_eq]
  have := copyRows_covered data W
    (rows3 N C H (rowOff C (P / R) (R / 2)) (rowOff C H W)) tile
    (rowOff C (P / R) (R / 2) n c h + w)
    (rowOff C (P / R) (R / 2) n c h, rowOff C H W n c h)
    (mem_rows3 hn hc hh) ⟨by omega, by omega⟩ ?_
  · rw [this]
    congr 1
    omega
  · intro r' hr' hc1 hc2
    obtain ⟨n', c', h', hn', hc', hh', he⟩ := mem_rows3_inv hr'
    subst he
    obtain ⟨e1, e2, e3⟩ := rowOff_unique hH hW hn hc hh hn' hc' hh' hw hc1 hc2
    subst e1; subst e2; subst e3; rfl

lemma untile_at (data tile : Nat → Nat) (N C H W P R : Nat) (n c h w : Nat)
    (hn : n < N) (hc : c < C) (hh : h < H) (hw : w < W) :
    ane_untile data tile N C H W P R (rowOff C H W n c h + w) =
      tile (rowOff C (P / R) (R / 2) n c h + w) := by
  rw [ane_untile_eq]
  have := copyRows_covered tile W
    (rows3 N C H (rowOff C H W) (rowOff C (P / R) (R / 2)))
    (zeroFill data (N * C * H * W))
    (rowOff C H W n c h + w)
    (rowOff C H W n c h, rowOff C (P / R) (R / 2) n c h)
    (mem_rows3 hn hc hh) ⟨by omega, by omega⟩ ?_
  · rw [this]
    congr 1
    omega
  · intro r' hr' hc1 hc2
    obtain ⟨n', c', h', hn', hc', hh', he⟩ := mem_rows3_inv hr'
    subst he
    obtain ⟨e1, e2, e3⟩ := rowOff_unique (le_refl H) (le_refl W) hn hc hh hn' hc' hh' hw hc1 hc2
    subst e1; subst e2; subst e3; rfl

lemma dense_decomp {N C H W i : Nat} (hi : i < N * C * H * W) :
    ∃ n c h w, n < N ∧ c < C ∧ h < H ∧ w < W ∧ i = rowOff C H W n c h + w := by
  have hW : 0 < W := by
    rcases Nat.eq_zero_or_pos W with h | h
    · subst h; simp at hi
    · exact h
  have hH : 0 < H := by
    rcases Nat.eq_zero_or_pos H with h | h
    · subst h; simp at hi
    · exact h
  have hC : 0 < C := by
    rcases Nat.eq_zero_or_pos C with h | h
    · subst h; simp at hi
    · exact h
  refine ⟨i / W / H / C, i / W / H % C, i / W % H, i % W,
    ?_, Nat.mod_lt _ hC, Nat.mod_lt _ hH, Nat.mod_lt _ hW, ?_⟩
  · have s1 : i / W < N * C * H := by
      rw [Nat.div_lt_iff_lt_mul hW]
      exact lt_of_lt_of_eq hi (by ring)
    have s2 : i / W / H < N * C := by
      rw [Nat.div_lt_iff_lt_mul hH]
      exact lt_of_lt_of_eq s1 (by ring)
    rw [Nat.div_lt_iff_lt_mul hC]
    exact lt_of_lt_of_eq s2 (by ring)
  · have d1 := Nat.div_add_mod i W
    have d2 := Nat.div_add_mod (i / W) H
    have d3 := Nat.div_add_mod (i / W / H) C
    calc i = W * (i / W) + i % W := by omega
      _ = W * (H * (i / W / H) + i / W % H) + i % W := by rw [d2]
      _ = W * (H * (C * (i / W / H / C) + i / W / H % C) + i / W % H) + i % W := by rw [d3]
      _ = rowOff C H W (i / W / H / C) (i / W / H % C) (i / W % H) + i % W := by
            simp only [rowOff]; ring

/-- C1: for every shape (N, C, H, W, P, R) with R a non-zero multiple of the
2-byte element size, P a non-zero multiple of R, H ≤ P / R and W ≤ R / 2,
untiling the result of tiling a dense tensor X reproduces X on all of its
N*C*H*W elements, whatever the initial contents of the tile buffer and of
the destination buffer. -/
theorem claim_C1_roundtrip (N C H W P R : Nat) (data tile0 dres : Nat → Nat)
    (hR0 : R ≠ 0) (hR2 : 2 ∣ R) (hP0 : P ≠ 0) (hPR : R ∣ P)
    (hH : H ≤ P / R) (hW : W ≤ R / 2) :
    ∀ i < N * C * H * W,
      ane_untile dres (ane_tile data tile0 N C H W P R) N C H W P R i = data i := by
  intro i hi
  obtain ⟨n, c, h, w, hn, hc, hh, hw, he⟩ := dense_decomp hi
  rw [he, untile_at _ _ _ _ _ _ _ _ _ _ _ _ hn hc hh hw,
    tile_at _ _ _ _ _ _ _ _ hH hW _ _ _ _ hn hc hh hw]

theorem claim_C1_witness :
    ane_untile (fun _ => 7) (ane_tile (fun i => i + 10) (fun _ => 99) 1 1 2 2 32 8)
      1 1 2 2 32 8 3 = (fun i : Nat => i + 10) 3 :=
  claim_C1_roundtrip 1 1 2 2 32 8 (fun i => i + 10) (fun _ => 99) (fun _ => 7)
    (by decide) (by decide) (by decide) (by decide) (by decide) (by decide) 3 (by decide)

lemma rowOff_add_W_le {N C H W n c h : Nat} (hn : n < N) (hc : c < C) (hh : h < H) :
    rowOff C H W n c h + W ≤ N * C * H * W := by
  rw [rowOff_eq_mul]
  have h1 : n * C + c + 1 ≤ N * C := by
    calc n * C + c + 1 ≤ n * C + C := by omega
      _ = (n + 1) * C := by ring
      _ ≤ N * C := Nat.mul_le_mul_right C hn
  have h2 : (n * C + c) * H + h + 1 ≤ N * C * H := by
    calc (n * C + c) * H + h + 1 ≤ (n * C + c) * H + H := by omega
      _ = (n * C + c + 1) * H := by ring
      _ ≤ N * C * H := Nat.mul_le_mul_right H h1
  calc ((n * C + c) * H + h) * W + W = ((n * C + c) * H + h + 1) * W := by ring
    _ ≤ N * C * H * W := Nat.mul_le_mul_right W h2

lemma untile_untouched (data tile : Nat → Nat) (N C H W P R i : Nat)
    (hi : N * C * H * W ≤ i) :
    ane_untile data tile N C H W P R i = data i := by
  rw [ane_untile_eq, copyRows_notin]
  · simp [zeroFill, show ¬ i < N * C * H * W by omega]
  · intro r hr hcov
    obtain ⟨n', c', h', hn', hc', hh', he⟩ := mem_rows3_inv hr
    subst he
    have hb := rowOff_add_W_le (C := C) (H := H) (W := W) hn' hc' hh'
    simp only at hcov
    omega

/-- C9: ane_untile zeroes the N*C*H*W dense elements and then copies exactly W
elements per (n, c, h) row with h < H, so every dense output position is a
copied tile element taken from row h < H and column w < W of its plane — no
padding position of the tile (column ≥ W or row ≥ H) ever reaches the dense
output — and positions outside the N*C*H*W extent are not touched at all. -/
theorem claim_C9_untile_shape (N C H W P R : Nat) (dres tiled : Nat → Nat)
    (hH : H ≤ P / R) (hW : W ≤ R / 2) :
    (∀ i < N * C * H * W, ∃ n c h w, n < N ∧ c < C ∧ h < H ∧ w < W ∧
        i = rowOff C H W n c h + w ∧
        ane_untile dres tiled N C H W P R i =
          tiled (rowOff C (P / R) (R / 2) n c h + w)) ∧
    (∀ i, N * C * H * W ≤ i → ane_untile dres tiled N C H W P R i = dres i) := by
  refine ⟨fun i hi => ?_, fun i hi => untile_untouched dres tiled N C H W P R i hi⟩
  obtain ⟨n, c, h, w, hn, hc, hh, hw, he⟩ := dense_decomp hi
  exact ⟨n, c, h, w, hn, hc, hh, hw, he, by
    rw [he, untile_at _ _ _ _ _ _ _ _ _ _ _ _ hn hc hh hw]⟩

theorem claim_C9_witness :
    ane_untile (fun _ => 5) (fun i => i) 1 1 2 2 32 8 100 = (fun _ : Nat => 5) 100 :=
  (claim_C9_untile_shape 1 1 2 2 32 8 (fun _ => 5) (fun i => i)
    (by decide) (by decide)).2 100 (by decide)

/-- C6 (amended): ane_bo_free on a mapped BO munmaps and then frees the
device-side allocation, and on any unmapped BO (including the uninitialized
one, making the call idempotent) it changes no device state at all — in
particular, contrary to the claim, no device-side free is attempted for a BO
that holds an allocation but was never mapped. -/
theorem claim_C6_release (d : Dev) (bo : Bo) :
    (bo.map = true →
      (ane_bo_free d bo).1.log = d.log ++ [Event.munmap bo.handle, Event.free bo.handle] ∧
      (ane_bo_free d bo).1.live = d.live.erase bo.handle ∧
      (ane_bo_free d bo).2 = { bo with map := false }) ∧
    (bo.map = false →
      (ane_bo_free d bo).1 = d ∧ (ane_bo_free d bo).2 = { bo with map := false }) := by
  constructor
  · intro hm
    simp [ane_bo_free, bo_free, hm]
  · intro hm
    simp [ane_bo_free, hm]

theorem claim_C6_witness :
    (ane_bo_free {} { size := 0x4000, handle := 5, offset := 0, map := true }).1.log =
        [] ++ [Event.munmap 5, Event.free 5] ∧
      (ane_bo_free {} { size := 0x4000, handle := 5, offset := 0, map := true }).1.live =
        Multiset.erase 0 5 ∧
      (ane_bo_free {} { size := 0x4000, handle := 5, offset := 0, map := true }).2 =
        { size := 0x4000, handle := 5, offset := 0, map := false } :=
  (claim_C6_release {} { size := 0x4000, handle := 5, offset := 0, map := true }).1 rfl

/-- Counterexample to C6 as stated: on a BO with a live allocation (handle 5)
but no mapping, ane_bo_free issues no BO_FREE ioctl at all (the log stays
empty), though the claim requires the device-side free to be attempted. -/
theorem claim_C6_counterexample :
    (ane_bo_free {} { size := 0x4000, handle := 5, offset := 0, map := false }).1.log = [] ∧
      (5 : Nat) ≠ 0 := by
  constructor
  · rfl
  · decide

/-- C8: when the allocation ioctl succeeds and the subsequent mmap fails,
ane_bo_init frees the device-side allocation before returning the error (the
log gains the alloc and its matching free, and the live set is unchanged),
and hands back the BO with handle 0, offset 0 and no mapping; a zero-size
request fails with -EINVAL before any device call. -/
theorem claim_C8_map_fail (o : Oracle) (d : Dev) (bo : Bo)
    (hsz : bo.size ≠ 0)
    (halloc : o.allocFail d.ioctlCount = false)
    (hmmap : o.mmapFail d.mmapCount = true) :
    (ane_bo_init o d bo).2.2 < 0 ∧
    (ane_bo_init o d bo).1.log = d.log ++ [Event.alloc d.ctr, Event.free d.ctr] ∧
    (ane_bo_init o d bo).1.live = d.live ∧
    (ane_bo_init o d bo).2.1 = { bo with handle := 0, offset := 0, map := false } ∧
    (∀ o' d' bo', bo'.size = 0 → ane_bo_init o' d' bo' = (d', bo', -22)) := by
  refine ⟨?_, ?_, ?_, ?_, fun o' d' bo' h => by simp [ane_bo_init, h]⟩ <;>
    simp [ane_bo_init, bo_init, bo_mmap, bo_free, hsz, halloc, hmmap]

theorem claim_C8_witness :
    (ane_bo_init ⟨fun _ => false, fun _ => true⟩ {} { size := 0x4000 }).2.2 < 0 ∧
      (ane_bo_init ⟨fun _ => false, fun _ => true⟩ {} { size := 0x4000 }).1.live = 0 := by
  have h := claim_C8_map_fail ⟨fun _ => false, fun _ => true⟩ {} { size := 0x4000 }
    (by decide) rfl rfl
  exact ⟨h.1, h.2.2.1⟩

lemma ane_bo_init_ok (o : Oracle) (d : Dev) (bo : Bo) (d' : Dev) (bo' : Bo) (err : Int)
    (heq : ane_bo_init o d bo = (d', bo', err)) (hok : ¬ err < 0) :
    bo'.map = true ∧ bo'.size = bo.size ∧ bo.size ≠ 0 := by
  by_cases h0 : bo.size = 0
  · simp [ane_bo_init, h0] at heq
    omega
  · by_cases ha : o.allocFail d.ioctlCount
    · simp [ane_bo_init, bo_init, h0, ha] at heq
      omega
    · by_cases hm : o.mmapFail d.mmapCount
      · simp [ane_bo_init, bo_init, bo_mmap, bo_free, h0, ha, hm] at heq
        omega
      · simp [ane_bo_init, bo_init, bo_mmap, h0, ha, hm] at heq
        obtain ⟨hd, hbo, herr⟩ := heq
        subst hbo
        exact ⟨rfl, rfl, h0⟩

lemma chan_init_loop_ok (o : Oracle) (anec : Anec) :
    ∀ (l : List (Fin ANE_TILE_COUNT)), l.Nodup →
      ∀ d chans d' chans' err,
        chan_init_loop o anec l d chans = (d', chans', err) → ¬ err < 0 →
        (∀ b ∈ l, (anec.tiles b ≠ 0 →
            (chans' b).map = true ∧ (chans' b).size = tile_shift (anec.tiles b)) ∧
          (anec.tiles b = 0 → chans' b = chans b)) ∧
        (∀ b, b ∉ l → chans' b = chans b) := by
  intro l
  induction l with
  | nil =>
    intro _ d chans d' chans' err heq hok
    simp only [chan_init_loop] at heq
    obtain ⟨rfl, rfl, rfl⟩ := Prod.mk.injEq .. ▸ heq
    exact ⟨by simp, fun b _ => rfl⟩
  | cons a t ih =>
    intro hnd d chans d' chans' err heq hok
    have hat : a ∉ t := (List.nodup_cons.1 hnd).1
    have hndt : t.Nodup := (List.nodup_cons.1 hnd).2
    simp only [chan_init_loop] at heq
    by_cases hta : anec.tiles a ≠ 0
    · rw [if_pos hta] at heq
      rcases hbe : ane_bo_init o d { chans a with size := tile_shift (anec.tiles a) }
        with ⟨d1, bo1, e1⟩
      rw [hbe] at heq
      simp only at heq
      by_cases he1 : e1 < 0
      · rw [if_pos he1] at heq
        obtain ⟨rfl, rfl, rfl⟩ := Prod.mk.injEq .. ▸ heq
        exact absurd he1 hok
      · rw [if_neg he1] at heq
        obtain ⟨hmem, hout⟩ := ih hndt _ _ _ _ _ heq hok
        have hbok := ane_bo_init_ok o d _ d1 bo1 e1 hbe he1
        refine ⟨fun b hb => ?_, fun b hb => ?_⟩
        · rcases List.mem_cons.1 hb with rfl | hbt
          · have hca : chans' b = Function.update chans b bo1 b := hout b hat
            rw [Function.update_same] at hca
            refine ⟨fun _ => ?_, fun h0 => absurd h0 hta⟩
            rw [hca]
            exact ⟨hbok.1, hbok.2.1⟩
          · have hba : b ≠ a := fun hc => hat (hc ▸ hbt)
            have := hmem b hbt
            rwa [Function.update_noteq hba] at this
        · have hba : b ≠ a := fun hc => hb (hc ▸ List.mem_cons_self a t)
          have hbt : b ∉ t := fun hc => hb (List.mem_cons_of_mem a hc)
          rw [hout b hbt, Function.update_noteq hba]
    · rw [if_neg hta] at heq
      push_neg at hta
      obtain ⟨hmem, hout⟩ := ih hndt _ _ _ _ _ heq hok
      refine ⟨fun b hb => ?_, fun b hb => ?_⟩
      · rcases List.mem_cons.1 hb with rfl | hbt
        · exact ⟨fun h0 => absurd hta h0, fun _ => hout b hat⟩
        · exact hmem b hbt
      · exact hout b (fun hc => hb (List.mem_cons_of_mem a hc))

lemma and_high_mask (y : Nat) (hy : y < 2 ^ 64) :
    y &&& (2 ^ 64 - 2 ^ 14) = y / 2 ^ 14 * 2 ^ 14 := by
  have hmask : (2 ^ 64 - 2 ^ 14 : Nat) = (2 ^ 50 - 1) <<< 14 := by
    rw [Nat.shiftLeft_eq]
    norm_num
  have hrhs : y / 2 ^ 14 * 2 ^ 14 = (y >>> 14) <<< 14 := by
    rw [Nat.shiftLeft_eq, Nat.shiftRight_eq_div_pow]
  rw [hmask, hrhs]
  apply Nat.eq_of_testBit_eq
  intro j
  rw [Nat.testBit_and, Nat.testBit_shiftLeft, Nat.testBit_shiftLeft, Nat.testBit_shiftRight]
  rcases Nat.lt_or_ge j 14 with hj | hj
  · simp [show ¬ 14 ≤ j by omega]
  · have h2 : 14 + (j - 14) = j := by omega
    rw [h2]
    rcases Nat.lt_or_ge j 64 with hj64 | hj64
    · have h1 : (2 ^ 50 - 1 : Nat).testBit (j - 14) = true := by
        rw [Nat.testBit_two_pow_sub_one]
        simp only [decide_eq_true_eq]
        omega
      rw [h1]
      simp [hj]
    · have h1 : (2 ^ 50 - 1 : Nat).testBit (j - 14) = false := by
        rw [Nat.testBit_two_pow_sub_one]
        simp only [decide_eq_false_iff_not]
        omega
      have h3 : y.testBit j = false :=
        Nat.testBit_eq_false_of_lt
          (lt_of_lt_of_le hy (Nat.pow_le_pow_right (by norm_num) (by omega)))
      rw [h1, h3]
      simp

lemma tile_align_eq (x : Nat) (hx : x + TILE_SIZE - 1 < 2 ^ 64) :
    tile_align x = (x + TILE_SIZE - 1) / TILE_SIZE * TILE_SIZE := by
  have h1 : (TILE_SIZE : Nat) = 2 ^ 14 := by norm_num [TILE_SIZE]
  rw [tile_align, Nat.mod_eq_of_lt hx, h1, and_high_mask _ (h1 ▸ hx)]

lemma tile_align_roundup (x : Nat) (hx : x + TILE_SIZE - 1 < 2 ^ 64) :
    TILE_SIZE ∣ tile_align x ∧ x ≤ tile_align x ∧ tile_align x < x + TILE_SIZE := by
  rw [tile_align_eq x hx]
  refine ⟨⟨(x + TILE_SIZE - 1) / TILE_SIZE, by ring⟩, ?_, ?_⟩ <;>
  · simp only [TILE_SIZE] at *
    omega

/-- C4: after a successful ane_chan_init from the zeroed nn, a channel's BO is
mapped exactly when the descriptor's tile-size entry is non-zero, a present
channel's byte size is its tile-size entry shifted left by TILE_SHIFT (14),
and the bootstrap BO is mapped with size tile_align(td_size), which (for any
td_size whose round-up fits in 64 bits) is the least multiple of the 16 KiB
TILE_SIZE that is at least td_size. -/
theorem claim_C4_alloc_iff (o : Oracle) (anec : Anec) (d : Dev) (d' : Dev) (nn' : NN)
    (err : Int)
    (heq : ane_chan_init o anec d nn0 = (d', nn', err)) (hok : ¬ err < 0)
    (htd : anec.td_size + TILE_SIZE - 1 < 2 ^ 64) :
    (∀ b, ((nn'.chans b).map = true ↔ anec.tiles b ≠ 0) ∧
      (anec.tiles b ≠ 0 → (nn'.chans b).size = tile_shift (anec.tiles b))) ∧
    nn'.btsp.map = true ∧ nn'.btsp.size = tile_align anec.td_size ∧
    TILE_SIZE ∣ nn'.btsp.size ∧ anec.td_size ≤ nn'.btsp.size ∧
    nn'.btsp.size < anec.td_size + TILE_SIZE := by
  rcases hloop : chan_init_loop o anec (List.finRange ANE_TILE_COUNT) d nn0.chans
    with ⟨d1, chans1, e1⟩
  unfold ane_chan_init at heq
  rw [hloop] at heq
  simp only at heq
  by_cases he1 : e1 < 0
  · rw [if_pos he1] at heq
    obtain ⟨rfl, rfl, rfl⟩ := Prod.mk.injEq .. ▸ heq
    exact absurd he1 hok
  · rw [if_neg he1] at heq
    rcases hbt : ane_bo_init o d1 { nn0.btsp with size := tile_align anec.td_size }
      with ⟨d2, bo2, e2⟩
    rw [hbt] at heq
    simp only at heq
    by_cases he2 : e2 < 0
    · rw [if_pos he2] at heq
      obtain ⟨rfl, rfl, rfl⟩ := Prod.mk.injEq .. ▸ heq
      exact absurd he2 hok
    · rw [if_neg he2] at heq
      obtain ⟨rfl, rfl, rfl⟩ := Prod.mk.injEq .. ▸ heq
      obtain ⟨hmem, _⟩ :=
        chan_init_loop_ok o anec (List.finRange ANE_TILE_COUNT)
          (List.nodup_finRange _) d nn0.chans d1 chans1 e1 hloop he1
      have hbok := ane_bo_init_ok o d1 _ d2 bo2 e2 hbt he2
      have hround := tile_align_roundup anec.td_size htd
      have hbsz : bo2.size = tile_align anec.td_size := by
        have h := hbok.2.1
        simpa using h
      refine ⟨fun b => ?_, hbok.1, hbsz, by rw [show NN.btsp ⟨chans1, bo2⟩ = bo2 from rfl, hbsz]; exact hround.1,
        by rw [show NN.btsp ⟨chans1, bo2⟩ = bo2 from rfl, hbsz]; exact hround.2.1,
        by rw [show NN.btsp ⟨chans1, bo2⟩ = bo2 from rfl, hbsz]; exact hround.2.2⟩
      obtain ⟨hpres, habs⟩ := hmem b (List.mem_finRange b)
      refine ⟨⟨fun hmap => ?_, fun h => (hpres h).1⟩, fun h => (hpres h).2⟩
      by_contra h0
      have h0' : anec.tiles b = 0 := by omega
      rw [show NN.chans ⟨chans1, bo2⟩ b = chans1 b from rfl, habs h0'] at hmap
      simp [nn0] at hmap

theorem claim_C4_witness :
    (((ane_chan_init noFailOracle anecEx {} nn0).2.1.chans ⟨4, by decide⟩).map = true ↔
        anecEx.tiles ⟨4, by decide⟩ ≠ 0) ∧
      (ane_chan_init noFailOracle anecEx {} nn0).2.1.btsp.map = true := by
  have h := claim_C4_alloc_iff noFailOracle anecEx {}
    (ane_chan_init noFailOracle anecEx {} nn0).1
    (ane_chan_init noFailOracle anecEx {} nn0).2.1
    (ane_chan_init noFailOracle anecEx {} nn0).2.2
    rfl (by decide) (by decide)
  exact ⟨(h.1 ⟨4, by decide⟩).1, h.2.1⟩

lemma allocsOf_append (l1 l2 : List Event) :
    allocsOf (l1 ++ l2) = allocsOf l1 + allocsOf l2 := by
  simp [allocsOf, List.filterMap_append]

lemma freesOf_append (l1 l2 : List Event) :
    freesOf (l1 ++ l2) = freesOf l1 + freesOf l2 := by
  simp [freesOf, List.filterMap_append]

lemma allocsOf_alloc_cons (h : Nat) (l : List Event) :
    allocsOf (Event.alloc h :: l) = ({h} : Multiset Nat) + allocsOf l := by
  simp [allocsOf, List.filterMap_cons, Multiset.singleton_add]

lemma allocsOf_mmap_cons (h : Nat) (l : List Event) :
    allocsOf (Event.mmap h :: l) = allocsOf l := by
  simp [allocsOf, List.filterMap_cons]

lemma freesOf_free_cons (h : Nat) (l : List Event) :
    freesOf (Event.free h :: l) = ({h} : Multiset Nat) + freesOf l := by
  simp [freesOf, List.filterMap_cons, Multiset.singleton_add]

lemma mappedOver_cons (a : Fin ANE_TILE_COUNT) (t : List (Fin ANE_TILE_COUNT))
    (chans : Fin ANE_TILE_COUNT → Bo) :
    mappedOver (a :: t) chans =
      (if (chans a).map then ({(chans a).handle} : Multiset Nat) else 0) +
        mappedOver t chans := by
  by_cases hm : (chans a).map
  · simp [mappedOver, List.filter_cons, hm, Multiset.singleton_add]
  · simp [mappedOver, List.filter_cons, hm]

lemma mappedOver_congr {l : List (Fin ANE_TILE_COUNT)}
    {chans1 chans2 : Fin ANE_TILE_COUNT → Bo} (h : ∀ b ∈ l, chans1 b = chans2 b) :
    mappedOver l chans1 = mappedOver l chans2 := by
  induction l with
  | nil => rfl
  | cons a t ih =>
    rw [mappedOver_cons, mappedOver_cons, h a (List.mem_cons_self a t),
      ih fun b hb => h b (List.mem_cons_of_mem a hb)]

lemma mappedOver_zero {l : List (Fin ANE_TILE_COUNT)} {chans : Fin ANE_TILE_COUNT → Bo}
    (h : ∀ b ∈ l, (chans b).map = false) :
    mappedOver l chans = 0 := by
  induction l with
  | nil => rfl
  | cons a t ih =>
    rw [mappedOver_cons, h a (List.mem_cons_self a t),
      ih fun b hb => h b (List.mem_cons_of_mem a hb)]
    simp

lemma add_single_erase (base M : Multiset Nat) (h : Nat) :
    (base + (({h} : Multiset Nat) + M)).erase h = base + M := by
  rw [Multiset.singleton_add, Multiset.add_cons, Multiset.erase_cons_head]

lemma ane_bo_free_mapped (d : Dev) (bo : Bo) (hm : bo.map = true) :
    ane_bo_free d bo =
      ({ d with live := d.live.erase bo.handle, log := d.log ++ [Event.munmap bo.handle, Event.free bo.handle] },
       { bo with map := false }) := by
  simp [ane_bo_free, bo_free, hm]

lemma ane_bo_free_unmapped (d : Dev) (bo : Bo) (hm : bo.map = false) :
    ane_bo_free d bo = (d, { bo with map := false }) := by
  simp [ane_bo_free, hm]

lemma free_fold (base : Multiset Nat) :
    ∀ (l : List (Fin ANE_TILE_COUNT)), l.Nodup →
      ∀ (d : Dev) (chans : Fin ANE_TILE_COUNT → Bo),
        d.live = base + mappedOver l chans →
        (l.foldl free_step (d, chans)).1.live = base ∧
        (∃ ext, (l.foldl free_step (d, chans)).1.log = d.log ++ ext ∧
          allocsOf ext = 0 ∧ freesOf ext = mappedOver l chans) ∧
        (∀ b ∈ l, ((l.foldl free_step (d, chans)).2 b).map = false) ∧
        (∀ b, b ∉ l → (l.foldl free_step (d, chans)).2 b = chans b) ∧
        (l.foldl free_step (d, chans)).1.ioctlCount = d.ioctlCount ∧
        (l.foldl free_step (d, chans)).1.mmapCount = d.mmapCount := by
  intro l
  induction l with
  | nil =>
    intro _ d chans hlive
    refine ⟨?_, ⟨[], ?_, rfl, ?_⟩, ?_, fun b _ => rfl, rfl, rfl⟩
    · show d.live = base
      rw [hlive, show mappedOver [] chans = 0 from rfl, add_zero]
    · show d.log = d.log ++ []
      simp
    · simp [freesOf, mappedOver]
    · intro b hb
      exact absurd hb (List.not_mem_nil b)
  | cons a t ih =>
    intro hnd d chans hlive
    have hat : a ∉ t := (List.nodup_cons.1 hnd).1
    have hndt : t.Nodup := (List.nodup_cons.1 hnd).2
    rw [List.foldl_cons]
    by_cases hm : (chans a).map
    · rw [show free_step (d, chans) a =
          ({ d with
              live := d.live.erase (chans a).handle
              log := d.log ++ [Event.munmap (chans a).handle, Event.free (chans a).handle] },
            Function.update chans a { chans a with map := false }) from by
        simp [free_step, ane_bo_free_mapped d (chans a) hm]]
      set d1 : Dev := { d with
        live := d.live.erase (chans a).handle
        log := d.log ++ [Event.munmap (chans a).handle, Event.free (chans a).handle] } with hd1
      set chans1 := Function.update chans a { chans a with map := false } with hchans1
      have hmc : mappedOver t chans1 = mappedOver t chans :=
        mappedOver_congr fun b hb => by
          have hba : b ≠ a := fun hc => hat (hc ▸ hb)
          rw [hchans1, Function.update_noteq hba _ _]
      have hlive1 : d1.live = base + mappedOver t chans1 := by
        rw [hd1, hmc]
        show (d.live).erase (chans a).handle = base + mappedOver t chans
        rw [hlive, mappedOver_cons, if_pos hm, add_single_erase]
      obtain ⟨h1, ⟨ext, hext, hea, hef⟩, h3, h4, h5, h6⟩ := ih hndt d1 chans1 hlive1
      refine ⟨h1, ⟨[Event.munmap (chans a).handle, Event.free (chans a).handle] ++ ext,
          ?_, ?_, ?_⟩, ?_, ?_, ?_, ?_⟩
      · rw [hext, hd1]
        simp
      · rw [allocsOf_append, hea]
        rfl
      · rw [freesOf_append, hef, mappedOver_cons, if_pos hm, hmc]
        rfl
      · intro b hb
        rcases List.mem_cons.1 hb with rfl | hbt
        · rw [h4 b hat, hchans1, Function.update_same]
        · exact h3 b hbt
      · intro b hb
        have hba : b ≠ a := fun hc => hb (hc ▸ List.mem_cons_self a t)
        rw [h4 b (fun hc => hb (List.mem_cons_of_mem a hc)), hchans1,
          Function.update_noteq hba _ _]
      · rw [h5, hd1]
      · rw [h6, hd1]
    · have hmf : (chans a).map = false := by simpa using hm
      rw [show free_step (d, chans) a =
          (d, Function.update chans a { chans a with map := false }) from by
        simp [free_step, ane_bo_free_unmapped d (chans a) hmf]]
      set chans1 := Function.update chans a { chans a with map := false } with hchans1
      have hmc : mappedOver t chans1 = mappedOver t chans :=
        mappedOver_congr fun b hb => by
          have hba : b ≠ a := fun hc => hat (hc ▸ hb)
          rw [hchans1, Function.update_noteq hba _ _]
      have hlive1 : d.live = base + mappedOver t chans1 := by
        rw [hmc, hlive, mappedOver_cons, if_neg hm]
        simp
      obtain ⟨h1, ⟨ext, hext, hea, hef⟩, h3, h4, h5, h6⟩ := ih hndt d chans1 hlive1
      refine ⟨h1, ⟨ext, hext, hea, ?_⟩, ?_, ?_, h5, h6⟩
      · rw [hef, mappedOver_cons, if_neg hm, hmc]
        simp
      · intro b hb
        rcases List.mem_cons.1 hb with rfl | hbt
        · rw [h4 b hat, hchans1, Function.update_same]
        · exact h3 b hbt
      · intro b hb
        have hba : b ≠ a := fun hc => hb (hc ▸ List.mem_cons_self a t)
        rw [h4 b (fun hc => hb (List.mem_cons_of_mem a hc)), hchans1,
          Function.update_noteq hba _ _]

lemma ane_chan_free_spec (base : Multiset Nat) (d : Dev) (nn : NN)
    (hlive : d.live = (base + mappedOver (List.finRange ANE_TILE_COUNT) nn.chans) +
      (if nn.btsp.map then ({nn.btsp.handle} : Multiset Nat) else 0)) :
    (ane_chan_free d nn).1.live = base ∧
    (∃ ext, (ane_chan_free d nn).1.log = d.log ++ ext ∧ allocsOf ext = 0 ∧
      freesOf ext = mappedOver (List.finRange ANE_TILE_COUNT) nn.chans +
        (if nn.btsp.map then ({nn.btsp.handle} : Multiset Nat) else 0)) ∧
    (∀ b, ((ane_chan_free d nn).2.chans b).map = false) ∧
    (ane_chan_free d nn).2.btsp.map = false ∧
    (ane_chan_free d nn).1.ioctlCount = d.ioctlCount := by
  by_cases hbm : nn.btsp.map
  · rw [show ane_chan_free d nn =
        ((List.foldl free_step
            ({ d with
                live := d.live.erase nn.btsp.handle
                log := d.log ++ [Event.munmap nn.btsp.handle, Event.free nn.btsp.handle] },
              nn.chans) (List.finRange ANE_TILE_COUNT)).1,
          ⟨(List.foldl free_step
            ({ d with
                live := d.live.erase nn.btsp.handle
                log := d.log ++ [Event.munmap nn.btsp.handle, Event.free nn.btsp.handle] },
              nn.chans) (List.finRange ANE_TILE_COUNT)).2,
            { nn.btsp with map := false }⟩) from by
      simp [ane_chan_free, ane_bo_free_mapped d nn.btsp hbm]]
    have hlive1 : (Dev.live { d with
        live := d.live.erase nn.btsp.handle
        log := d.log ++ [Event.munmap nn.btsp.handle, Event.free nn.btsp.handle] }) =
        base + mappedOver (List.finRange ANE_TILE_COUNT) nn.chans := by
      show d.live.erase nn.btsp.handle = _
      rw [hlive, if_pos hbm]
      rw [show (base + mappedOver (List.finRange ANE_TILE_COUNT) nn.chans) +
          ({nn.btsp.handle} : Multiset Nat) =
          base + (({nn.btsp.handle} : Multiset Nat) +
            mappedOver (List.finRange ANE_TILE_COUNT) nn.chans) from by
        rw [add_comm ({nn.btsp.handle} : Multiset Nat) _, ← add_assoc]]
      rw [add_single_erase]
    obtain ⟨h1, ⟨ext, hext, hea, hef⟩, h3, h4, h5, _⟩ :=
      free_fold base (List.finRange ANE_TILE_COUNT) (List.nodup_finRange _) _ nn.chans hlive1
    refine ⟨h1, ⟨[Event.munmap nn.btsp.handle, Event.free nn.btsp.handle] ++ ext,
        ?_, ?_, ?_⟩, fun b => h3 b (List.mem_finRange b), rfl, h5⟩
    · rw [hext]
      simp
    · rw [allocsOf_append, hea]
      rfl
    · rw [freesOf_append, hef, if_pos hbm]
      rw [show freesOf [Event.munmap nn.btsp.handle, Event.free nn.btsp.handle] =
        ({nn.btsp.handle} : Multiset Nat) from rfl]
      rw [add_comm]
  · have hbm' : nn.btsp.map = false := by simpa using hbm
    rw [show ane_chan_free d nn =
        ((List.foldl free_step (d, nn.chans) (List.finRange ANE_TILE_COUNT)).1,
          ⟨(List.foldl free_step (d, nn.chans) (List.finRange ANE_TILE_COUNT)).2,
            { nn.btsp with map := false }⟩) from by
      simp [ane_chan_free, ane_bo_free_unmapped d nn.btsp hbm']]
    have hlive1 : d.live = base + mappedOver (List.finRange ANE_TILE_COUNT) nn.chans := by
      rw [hlive, if_neg hbm, add_zero]
    obtain ⟨h1, ⟨ext, hext, hea, hef⟩, h3, h4, h5, _⟩ :=
      free_fold base (List.finRange ANE_TILE_COUNT) (List.nodup_finRange _) d nn.chans hlive1
    exact ⟨h1, ⟨ext, hext, hea, by rw [hef, if_neg hbm, add_zero]⟩,
      fun b => h3 b (List.mem_finRange b), rfl, h5⟩

lemma ane_bo_init_success (o : Oracle) (d : Dev) (bo : Bo) (hsz : bo.size ≠ 0)
    (ha : o.allocFail d.ioctlCount = false) (hm : o.mmapFail d.mmapCount = false) :
    ane_bo_init o d bo =
      ({ d with
          ctr := d.ctr + 1
          live := Multiset.cons d.ctr d.live
          log := d.log ++ [Event.alloc d.ctr, Event.mmap d.ctr]
          ioctlCount := d.ioctlCount + 1
          mmapCount := d.mmapCount + 1 },
       { bo with handle := d.ctr, offset := d.ctr, map := true }, 0) := by
  simp [ane_bo_init, bo_init, bo_mmap, hsz, ha, hm]

lemma ane_bo_init_fail_alloc (k : Nat) (d : Dev) (bo : Bo) (hsz : bo.size ≠ 0)
    (hio : d.ioctlCount = k) :
    ane_bo_init (failAt false k) d bo =
      ({ d with ioctlCount := k + 1 }, { bo with handle := 0, offset := 0 }, -22) := by
  simp [ane_bo_init, bo_init, failAt, hsz, hio]

lemma ane_bo_init_fail_mmap (k : Nat) (d : Dev) (bo : Bo) (hsz : bo.size ≠ 0)
    (hio : d.ioctlCount = k) (hmm : d.mmapCount = k) :
    ane_bo_init (failAt true k) d bo =
      ({ d with
          ctr := d.ctr + 1
          log := d.log ++ [Event.alloc d.ctr, Event.free d.ctr]
          ioctlCount := k + 1
          mmapCount := k + 1 },
       { bo with handle := 0, offset := 0, map := false }, -22) := by
  simp [ane_bo_init, bo_init, bo_mmap, bo_free, failAt, hsz, hio, hmm]

lemma presentCount_cons_pos {anec : Anec} {a : Fin ANE_TILE_COUNT}
    {t : List (Fin ANE_TILE_COUNT)} (hta : anec.tiles a ≠ 0) :
    presentCount anec (a :: t) = presentCount anec t + 1 := by
  simp [presentCount, List.filter_cons, hta]

lemma presentCount_cons_zero {anec : Anec} {a : Fin ANE_TILE_COUNT}
    {t : List (Fin ANE_TILE_COUNT)} (hta : anec.tiles a = 0) :
    presentCount anec (a :: t) = presentCount anec t := by
  simp [presentCount, List.filter_cons, hta]

lemma chan_init_loop_run (anec : Anec) (kind : Bool) (k : Nat)
    (htiles : ∀ b, anec.tiles b ≠ 0 → tile_shift (anec.tiles b) ≠ 0) :
    ∀ (l : List (Fin ANE_TILE_COUNT)), l.Nodup →
      ∀ (d : Dev) (chans : Fin ANE_TILE_COUNT → Bo),
        (∀ b ∈ l, (chans b).map = false) →
        d.mmapCount = d.ioctlCount → d.ioctlCount ≤ k →
        ∀ d' chans' err,
          chan_init_loop (failAt kind k) anec l d chans = (d', chans', err) →
          d'.live = d.live + mappedOver l chans' ∧
          (∃ ext, d'.log = d.log ++ ext ∧
            allocsOf ext = mappedOver l chans' + freesOf ext ∧
            d'.ioctlCount = d.ioctlCount + Multiset.card (allocsOf ext) +
              (if kind = false ∧ err < 0 then 1 else 0)) ∧
          (∀ b, b ∉ l → chans' b = chans b) ∧
          (if k < d.ioctlCount + presentCount anec l
           then err < 0 ∧ d'.ioctlCount = k + 1
           else err = 0 ∧ d'.ioctlCount = d.ioctlCount + presentCount anec l ∧
             d'.mmapCount = d'.ioctlCount) := by
  intro l
  induction l with
  | nil =>
    intro _ d chans _ hsync hk d' chans' err heq
    obtain ⟨rfl, rfl, rfl⟩ := Prod.mk.injEq .. ▸ heq
    refine ⟨by rw [show mappedOver [] chans = 0 from rfl, add_zero], ⟨[], by simp, ?_, ?_⟩,
      fun b _ => rfl, ?_⟩
    · rw [show mappedOver [] chans = 0 from rfl]
      rfl
    · rw [show allocsOf [] = 0 from rfl]
      simp
    · rw [if_neg (by simp [presentCount]; omega)]
      exact ⟨rfl, by simp [presentCount], hsync⟩
  | cons a t ih =>
    intro hnd d chans hmaps hsync hk d' chans' err heq
    have hat : a ∉ t := (List.nodup_cons.1 hnd).1
    have hndt : t.Nodup := (List.nodup_cons.1 hnd).2
    simp only [chan_init_loop] at heq
    by_cases hta : anec.tiles a ≠ 0
    · rw [if_pos hta] at heq
      rcases hbe : ane_bo_init (failAt kind k) d { chans a with size := tile_shift (anec.tiles a) }
        with ⟨d1, bo1, e1⟩
      rw [hbe] at heq
      simp only at heq
      have hsz : ({ chans a with size := tile_shift (anec.tiles a) } : Bo).size ≠ 0 :=
        htiles a hta
      rcases Nat.lt_or_ge d.ioctlCount k with hlt | hge
      · -- attempt succeeds, failure comes later (or never)
        have ha : (failAt kind k).allocFail d.ioctlCount = false := by
          simp [failAt, show d.ioctlCount ≠ k from by omega]
        have hmf : (failAt kind k).mmapFail d.mmapCount = false := by
          simp [failAt, hsync, show d.ioctlCount ≠ k from by omega]
        have hsucc := (ane_bo_init_success _ d _ hsz ha hmf).symm.trans hbe
        have hd1 := congrArg Prod.fst hsucc
        have hbo1 := congrArg (fun p : Dev × Bo × Int => p.2.1) hsucc
        have he1 := congrArg (fun p : Dev × Bo × Int => p.2.2) hsucc
        simp only at hd1 hbo1 he1
        rw [← he1] at heq
        rw [if_neg (by omega)] at heq
        have hmaps1 : ∀ b ∈ t, (Function.update chans a bo1 b).map = false := by
          intro b hb
          have hba : b ≠ a := fun hc => hat (hc ▸ hb)
          rw [Function.update_noteq hba _ _]
          exact hmaps b (List.mem_cons_of_mem a hb)
        have hsync1 : d1.mmapCount = d1.ioctlCount := by rw [← hd1]; simp [hsync]
        have hk1 : d1.ioctlCount ≤ k := by rw [← hd1]; simp; omega
        obtain ⟨ih1, ⟨ext, hext, hea, hei⟩, ih3, ih4⟩ :=
          ih hndt d1 (Function.update chans a bo1) hmaps1 hsync1 hk1 d' chans' err heq
        have hca : chans' a = bo1 := by
          rw [ih3 a hat, Function.update_same]
        have hmc : mappedOver (a :: t) chans' =
            ({d.ctr} : Multiset Nat) + mappedOver t chans' := by
          rw [mappedOver_cons, hca, ← hbo1]
          simp
        refine ⟨?_, ⟨[Event.alloc d.ctr, Event.mmap d.ctr] ++ ext, ?_, ?_, ?_⟩, ?_, ?_⟩
        · rw [ih1, ← hd1, hmc]
          show Multiset.cons d.ctr d.live + mappedOver t chans' = _
          rw [← Multiset.singleton_add]
          abel
        · rw [hext, ← hd1]
          try simp
        · rw [allocsOf_append, freesOf_append, hea, hmc]
          rw [show allocsOf [Event.alloc d.ctr, Event.mmap d.ctr] =
            ({d.ctr} : Multiset Nat) from rfl]
          rw [show freesOf [Event.alloc d.ctr, Event.mmap d.ctr] = 0 from rfl]
          rw [zero_add, add_assoc]
        · rw [hei, ← hd1, allocsOf_append, allocsOf_alloc_cons, allocsOf_mmap_cons]
          show d.ioctlCount + 1 + Multiset.card (allocsOf ext) + _ = _
          rw [show allocsOf ([] : List Event) = 0 from rfl, add_zero, Multiset.card_add,
            Multiset.card_singleton]
          omega
        · intro b hb
          have hba : b ≠ a := fun hc => hb (hc ▸ List.mem_cons_self a t)
          rw [ih3 b (fun hc => hb (List.mem_cons_of_mem a hc)), Function.update_noteq hba _ _]
        · rw [presentCount_cons_pos hta]
          have hio1 : d1.ioctlCount = d.ioctlCount + 1 := by rw [← hd1]
          rcases Nat.lt_or_ge k (d.ioctlCount + (presentCount anec t + 1)) with hc | hc
          · rw [if_pos hc]
            have := ih4
            rw [if_pos (by omega)] at this
            exact this
          · rw [if_neg (by omega)]
            have := ih4
            rw [if_neg (by omega)] at this
            exact ⟨this.1, by omega, this.2.2⟩
      · -- d.ioctlCount = k: this attempt fails
        have hke : d.ioctlCount = k := by omega
        rcases hkind : kind with hT | hF
        · -- alloc-kind failure
          have hfail := (ane_bo_init_fail_alloc k d _ hsz hke).symm.trans (hkind ▸ hbe)
          have hd1 := congrArg Prod.fst hfail
          have hbo1 := congrArg (fun p : Dev × Bo × Int => p.2.1) hfail
          have he1 := congrArg (fun p : Dev × Bo × Int => p.2.2) hfail
          simp only at hd1 hbo1 he1
          rw [← he1] at heq
          rw [if_pos (by omega)] at heq
          obtain ⟨rfl, rfl, rfl⟩ := Prod.mk.injEq .. ▸ heq
          have hmz : mappedOver (a :: t) (Function.update chans a bo1) = 0 := by
            apply mappedOver_zero
            intro b hb
            rcases List.mem_cons.1 hb with rfl | hbt
            · rw [Function.update_same, ← hbo1]
              show (chans b).map = false
              exact hmaps b hb
            · have hba : b ≠ a := fun hc => hat (hc ▸ hbt)
              rw [Function.update_noteq hba _ _]
              exact hmaps b (List.mem_cons_of_mem a hbt)
          refine ⟨by rw [hmz, add_zero, ← hd1], ⟨[], by rw [← hd1]; try simp, ?_, ?_⟩, ?_, ?_⟩
          · rw [hmz]
            rfl
          · rw [← hd1]
            show k + 1 = d.ioctlCount + Multiset.card (allocsOf []) + _
            rw [show allocsOf ([] : List Event) = 0 from rfl, if_pos ⟨rfl, by norm_num⟩]
            simp
            omega
          · intro b hb
            have hba : b ≠ a := fun hc => hb (hc ▸ List.mem_cons_self a t)
            rw [Function.update_noteq hba _ _]
          · rw [if_pos (by rw [presentCount_cons_pos hta]; omega)]
            refine ⟨by omega, by rw [← hd1]⟩
        · -- mmap-kind failure
          have hmk : d.mmapCount = k := by rw [hsync, hke]
          have hfail := (ane_bo_init_fail_mmap k d _ hsz hke hmk).symm.trans (hkind ▸ hbe)
          have hd1 := congrArg Prod.fst hfail
          have hbo1 := congrArg (fun p : Dev × Bo × Int => p.2.1) hfail
          have he1 := congrArg (fun p : Dev × Bo × Int => p.2.2) hfail
          simp only at hd1 hbo1 he1
          rw [← he1] at heq
          rw [if_pos (by omega)] at heq
          obtain ⟨rfl, rfl, rfl⟩ := Prod.mk.injEq .. ▸ heq
          have hmz : mappedOver (a :: t) (Function.update chans a bo1) = 0 := by
            apply mappedOver_zero
            intro b hb
            rcases List.mem_cons.1 hb with rfl | hbt
            · rw [Function.update_same, ← hbo1]
            · have hba : b ≠ a := fun hc => hat (hc ▸ hbt)
              rw [Function.update_noteq hba _ _]
              exact hmaps b (List.mem_cons_of_mem a hbt)
          refine ⟨by rw [hmz, add_zero, ← hd1], ⟨[Event.alloc d.ctr, Event.free d.ctr],
              by rw [← hd1]; try simp, ?_, ?_⟩, ?_, ?_⟩
          · rw [hmz, zero_add]
            rw [show allocsOf [Event.alloc d.ctr, Event.free d.ctr] =
                ({d.ctr} : Multiset Nat) from rfl,
              show freesOf [Event.alloc d.ctr, Event.free d.ctr] =
                ({d.ctr} : Multiset Nat) from rfl]
          · rw [← hd1]
            show k + 1 = d.ioctlCount + Multiset.card (allocsOf [Event.alloc d.ctr, Event.free d.ctr]) + _
            rw [show allocsOf [Event.alloc d.ctr, Event.free d.ctr] =
              ({d.ctr} : Multiset Nat) from rfl, Multiset.card_singleton, if_neg (by simp)]
            omega
          · intro b hb
            have hba : b ≠ a := fun hc => hb (hc ▸ List.mem_cons_self a t)
            rw [Function.update_noteq hba _ _]
          · rw [if_pos (by rw [presentCount_cons_pos hta]; omega)]
            refine ⟨by omega, by rw [← hd1]⟩
    · rw [if_neg hta] at heq
      push_neg at hta
      have hmaps' : ∀ b ∈ t, (chans b).map = false :=
        fun b hb => hmaps b (List.mem_cons_of_mem a hb)
      obtain ⟨ih1, ⟨ext, hext, hea, hei⟩, ih3, ih4⟩ :=
        ih hndt d chans hmaps' hsync hk d' chans' err heq
      have hca : chans' a = chans a := ih3 a hat
      have hmc : mappedOver (a :: t) chans' = mappedOver t chans' := by
        rw [mappedOver_cons, hca, hmaps a (List.mem_cons_self a t)]
        simp
      refine ⟨by rw [ih1, hmc], ⟨ext, hext, by rw [hea, hmc], hei⟩, ?_, ?_⟩
      · intro b hb
        exact ih3 b (fun hc => hb (List.mem_cons_of_mem a hc))
      · rw [presentCount_cons_zero hta]
        exact ih4

lemma tile_shift_ne_zero {x : Nat} (hx : x < 2 ^ 32) (h0 : x ≠ 0) : tile_shift x ≠ 0 := by
  show (x <<< TILE_SHIFT) % 2 ^ 64 ≠ 0
  rw [Nat.shiftLeft_eq]
  show x * 2 ^ 14 % 2 ^ 64 ≠ 0
  have h32 : (2 : Nat) ^ 32 = 4294967296 := by norm_num
  have h14 : (2 : Nat) ^ 14 = 16384 := by norm_num
  have h64 : (2 : Nat) ^ 64 = 18446744073709551616 := by norm_num
  rw [h14, h64]
  rw [h32] at hx
  omega

/-- C3: with the oracle making the k-th allocate-or-map attempt fail (any k up
to and including the bootstrap attempt, for a descriptor with 32-bit tile
entries and a non-zero bootstrap size), ane_chan_init returns a negative
error, restores the device's live-allocation multiset, frees exactly the
handles it had allocated (the free multiset of the new log stretch equals
the alloc multiset, whose size shows exactly the attempts before the failure
were allocated and the not-yet-attempted channels were never touched), makes
exactly k + 1 BO_INIT attempts, and leaves every channel and the bootstrap
unmapped — no partially initialized channel set is handed back. -/
theorem claim_C3_rollback (anec : Anec) (kind : Bool) (k : Nat)
    (htiles : ∀ b, anec.tiles b < 2 ^ 32)
    (htd : tile_align anec.td_size ≠ 0)
    (hk : k ≤ presentCount anec (List.finRange ANE_TILE_COUNT))
    (d0 : Dev) (hio : d0.ioctlCount = 0) (hmm : d0.mmapCount = 0)
    (d' : Dev) (nn' : NN) (err : Int)
    (heq : ane_chan_init (failAt kind k) anec d0 nn0 = (d', nn', err)) :
    err < 0 ∧
    d'.live = d0.live ∧
    (∃ ext, d'.log = d0.log ++ ext ∧ freesOf ext = allocsOf ext ∧
      Multiset.card (allocsOf ext) + (if kind then 0 else 1) = k + 1 ∧
      d'.ioctlCount = k + 1) ∧
    (∀ b, (nn'.chans b).map = false) ∧ nn'.btsp.map = false := by
  have htsh : ∀ b, anec.tiles b ≠ 0 → tile_shift (anec.tiles b) ≠ 0 :=
    fun b hb => tile_shift_ne_zero (htiles b) hb
  rcases hloop : chan_init_loop (failAt kind k) anec (List.finRange ANE_TILE_COUNT) d0 nn0.chans
    with ⟨d1, chans1, e1⟩
  unfold ane_chan_init at heq
  rw [hloop] at heq
  simp only at heq
  obtain ⟨L1, ⟨ext1, hext1, hea1, hei1⟩, _, L4⟩ :=
    chan_init_loop_run anec kind k htsh (List.finRange ANE_TILE_COUNT)
      (List.nodup_finRange _) d0 nn0.chans (fun b _ => rfl) (by rw [hio, hmm]) (by omega)
      d1 chans1 e1 hloop
  rcases Nat.lt_or_ge k (presentCount anec (List.finRange ANE_TILE_COUNT)) with hklt | hkge
  · -- failure inside the channel loop
    rw [if_pos (by omega)] at L4
    obtain ⟨he1, hioc1⟩ := L4
    rw [if_pos he1] at heq
    obtain ⟨hd', hnn', herr⟩ : (ane_chan_free d1 ⟨chans1, nn0.btsp⟩).1 = d' ∧
        (ane_chan_free d1 ⟨chans1, nn0.btsp⟩).2 = nn' ∧ e1 = err := by
      have h1 := congrArg Prod.fst heq
      have h2 := congrArg (fun p : Dev × NN × Int => p.2.1) heq
      have h3 := congrArg (fun p : Dev × NN × Int => p.2.2) heq
      exact ⟨h1, h2, h3⟩
    have hlive1 : d1.live = (d0.live + mappedOver (List.finRange ANE_TILE_COUNT)
        (NN.chans ⟨chans1, nn0.btsp⟩)) + (if (NN.btsp ⟨chans1, nn0.btsp⟩).map
          then ({(NN.btsp ⟨chans1, nn0.btsp⟩).handle} : Multiset Nat) else 0) := by
      rw [show (NN.btsp ⟨chans1, nn0.btsp⟩).map = false from rfl]
      simp only [if_neg Bool.false_ne_true]
      rw [add_zero]
      exact L1
    obtain ⟨F1, ⟨ext2, hext2, hea2, hef2⟩, F3, F4, F5⟩ :=
      ane_chan_free_spec d0.live d1 ⟨chans1, nn0.btsp⟩ hlive1
    refine ⟨by rw [← herr]; exact he1, by rw [← hd']; exact F1,
      ⟨ext1 ++ ext2, ?_, ?_, ?_, ?_⟩, ?_, ?_⟩
    · rw [← hd', hext2, hext1, List.append_assoc]
    · rw [freesOf_append, allocsOf_append, hea2, add_zero, hef2, hea1,
        show (NN.btsp ⟨chans1, nn0.btsp⟩).map = false from rfl]
      simp only [if_neg Bool.false_ne_true]
      rw [add_zero]
      rw [show mappedOver (List.finRange ANE_TILE_COUNT) (NN.chans ⟨chans1, nn0.btsp⟩) =
        mappedOver (List.finRange ANE_TILE_COUNT) chans1 from rfl]
      rw [add_comm]
    · rw [allocsOf_append, hea2, add_zero]
      rw [hioc1] at hei1
      rw [hio] at hei1
      rcases kind with hKF | hKT
      · rw [if_pos ⟨rfl, he1⟩] at hei1
        simp only [Bool.false_eq_true, if_false]
        omega
      · rw [if_neg (by simp)] at hei1
        simp only [if_true]
        omega
    · rw [← hd', F5, hioc1]
    · intro b
      rw [← hnn']
      exact F3 b
    · rw [← hnn']
      exact F4
  · -- the channel loop succeeds; the bootstrap allocation fails (k = presentCount)
    have hkeq : k = presentCount anec (List.finRange ANE_TILE_COUNT) := by omega
    rw [if_neg (by omega)] at L4
    obtain ⟨he1, hioc1, hmm1⟩ := L4
    rw [if_neg (by rw [he1]; omega)] at heq
    have hsz : ({ nn0.btsp with size := tile_align anec.td_size } : Bo).size ≠ 0 := htd
    have hio1 : d1.ioctlCount = k := by omega
    have hmm2 : d1.mmapCount = k := by omega
    rcases hbt : ane_bo_init (failAt kind k) d1 { nn0.btsp with size := tile_align anec.td_size }
      with ⟨d2, bo2, e2⟩
    rw [hbt] at heq
    simp only at heq
    rcases hkind : kind with hKF | hKT
    · -- alloc-kind failure at the bootstrap attempt
      have hfail := (ane_bo_init_fail_alloc k d1 _ hsz hio1).symm.trans (hkind ▸ hbt)
      have hd2 := congrArg Prod.fst hfail
      have hbo2 := congrArg (fun p : Dev × Bo × Int => p.2.1) hfail
      have he2 := congrArg (fun p : Dev × Bo × Int => p.2.2) hfail
      simp only at hd2 hbo2 he2
      rw [← he2] at heq
      rw [if_pos (by omega)] at heq
      obtain ⟨hd', hnn', herr⟩ : (ane_chan_free d2 ⟨chans1, bo2⟩).1 = d' ∧
          (ane_chan_free d2 ⟨chans1, bo2⟩).2 = nn' ∧ (-22 : Int) = err := by
        have h1 := congrArg Prod.fst heq
        have h2 := congrArg (fun p : Dev × NN × Int => p.2.1) heq
        have h3 := congrArg (fun p : Dev × NN × Int => p.2.2) heq
        exact ⟨h1, h2, h3⟩
      have hbm2 : bo2.map = false := by rw [← hbo2]; rfl
      have hlive2 : d2.live = (d0.live + mappedOver (List.finRange ANE_TILE_COUNT)
          (NN.chans ⟨chans1, bo2⟩)) + (if (NN.btsp ⟨chans1, bo2⟩).map
            then ({(NN.btsp ⟨chans1, bo2⟩).handle} : Multiset Nat) else 0) := by
        rw [show (NN.btsp ⟨chans1, bo2⟩).map = bo2.map from rfl, hbm2]
        simp only [if_neg Bool.false_ne_true]
        rw [add_zero, ← hd2]
        show d1.live = _
        exact L1
      obtain ⟨F1, ⟨ext2, hext2, hea2, hef2⟩, F3, F4, F5⟩ :=
        ane_chan_free_spec d0.live d2 ⟨chans1, bo2⟩ hlive2
      refine ⟨by omega, by rw [← hd']; exact F1, ⟨ext1 ++ ext2, ?_, ?_, ?_, ?_⟩, ?_, ?_⟩
      · rw [← hd', hext2, ← hd2]
        show (d1.log ++ ext2) = _
        rw [hext1, List.append_assoc]
      · rw [freesOf_append, allocsOf_append, hea2, add_zero, hef2, hea1,
          show (NN.btsp ⟨chans1, bo2⟩).map = bo2.map from rfl, hbm2]
        simp only [if_neg Bool.false_ne_true]
        rw [add_zero]
        rw [show mappedOver (List.finRange ANE_TILE_COUNT) (NN.chans ⟨chans1, bo2⟩) =
          mappedOver (List.finRange ANE_TILE_COUNT) chans1 from rfl]
        rw [add_comm]
      · rw [allocsOf_append, hea2, add_zero]
        rw [hioc1, hio] at hei1
        rw [if_neg (by rw [he1]; simp)] at hei1
        simp only [Bool.false_eq_true, if_false]
        omega
      · rw [← hd', F5, ← hd2]
      · intro b
        rw [← hnn']
        exact F3 b
      · rw [← hnn']
        exact F4
    · -- mmap-kind failure at the bootstrap attempt
      have hfail := (ane_bo_init_fail_mmap k d1 _ hsz hio1 hmm2).symm.trans (hkind ▸ hbt)
      have hd2 := congrArg Prod.fst hfail
      have hbo2 := congrArg (fun p : Dev × Bo × Int => p.2.1) hfail
      have he2 := congrArg (fun p : Dev × Bo × Int => p.2.2) hfail
      simp only at hd2 hbo2 he2
      rw [← he2] at heq
      rw [if_pos (by omega)] at heq
      obtain ⟨hd', hnn', herr⟩ : (ane_chan_free d2 ⟨chans1, bo2⟩).1 = d' ∧
          (ane_chan_free d2 ⟨chans1, bo2⟩).2 = nn' ∧ (-22 : Int) = err := by
        have h1 := congrArg Prod.fst heq
        have h2 := congrArg (fun p : Dev × NN × Int => p.2.1) heq
        have h3 := congrArg (fun p : Dev × NN × Int => p.2.2) heq
        exact ⟨h1, h2, h3⟩
      have hbm2 : bo2.map = false := by rw [← hbo2]
      have hlive2 : d2.live = (d0.live + mappedOver (List.finRange ANE_TILE_COUNT)
          (NN.chans ⟨chans1, bo2⟩)) + (if (NN.btsp ⟨chans1, bo2⟩).map
            then ({(NN.btsp ⟨chans1, bo2⟩).handle} : Multiset Nat) else 0) := by
        rw [show (NN.btsp ⟨chans1, bo2⟩).map = bo2.map from rfl, hbm2]
        simp only [if_neg Bool.false_ne_true]
        rw [add_zero, ← hd2]
        show d1.live = _
        exact L1
      obtain ⟨F1, ⟨ext2, hext2, hea2, hef2⟩, F3, F4, F5⟩ :=
        ane_chan_free_spec d0.live d2 ⟨chans1, bo2⟩ hlive2
      refine ⟨by omega, by rw [← hd']; exact F1,
        ⟨ext1 ++ ([Event.alloc d1.ctr, Event.free d1.ctr] ++ ext2), ?_, ?_, ?_, ?_⟩, ?_, ?_⟩
      · rw [← hd', hext2, ← hd2]
        show (d1.log ++ [Event.alloc d1.ctr, Event.free d1.ctr]) ++ ext2 = _
        rw [hext1, List.append_assoc, List.append_assoc]
      · rw [freesOf_append, allocsOf_append, freesOf_append, allocsOf_append,
          hea2, add_zero, hef2, hea1,
          show (NN.btsp ⟨chans1, bo2⟩).map = bo2.map from rfl, hbm2]
        simp only [if_neg Bool.false_ne_true]
        rw [add_zero]
        rw [show mappedOver (List.finRange ANE_TILE_COUNT) (NN.chans ⟨chans1, bo2⟩) =
          mappedOver (List.finRange ANE_TILE_COUNT) chans1 from rfl]
        rw [show allocsOf [Event.alloc d1.ctr, Event.free d1.ctr] =
            ({d1.ctr} : Multiset Nat) from rfl,
          show freesOf [Event.alloc d1.ctr, Event.free d1.ctr] =
            ({d1.ctr} : Multiset Nat) from rfl]
        abel
      · rw [allocsOf_append, allocsOf_append, hea2, add_zero,
          show allocsOf [Event.alloc d1.ctr, Event.free d1.ctr] =
            ({d1.ctr} : Multiset Nat) from rfl]
        rw [hioc1, hio] at hei1
        rw [if_neg (by rw [he1]; simp)] at hei1
        simp only [if_true]
        rw [Multiset.card_add, Multiset.card_singleton]
        omega
      · rw [← hd', F5, ← hd2]
      · intro b
        rw [← hnn']
        exact F3 b
      · rw [← hnn']
        exact F4

theorem claim_C3_witness :
    (ane_chan_init (failAt false 0) anecEx {} nn0).2.2 < 0 ∧
      (ane_chan_init (failAt false 0) anecEx {} nn0).1.live = ({} : Dev).live := by
  have h := claim_C3_rollback anecEx false 0 (by decide) (by decide) (by decide)
    {} rfl rfl
    (ane_chan_init (failAt false 0) anecEx {} nn0).1
    (ane_chan_init (failAt false 0) anecEx {} nn0).2.1
    (ane_chan_init (failAt false 0) anecEx {} nn0).2.2 rfl
  exact ⟨h.1, h.2.1⟩

/-- C7: on a file that can be opened (and seeked, for the payload read), a
short read is not fatal: ane_fread and ane_pread return 0 even when the file
holds fewer bytes than requested, and ane_model_init returns an owned model
rather than failing. -/
theorem claim_C7_short_read (bytes : List Nat) (data : Nat → Nat) (size offset : Nat)
    (hshort : bytes.length < size) :
    (ane_fread (some bytes) data size).2 = 0 ∧
    (ane_pread (some bytes) data size offset true).2 = 0 ∧
    (ane_model_init (some bytes) true).isSome = true := by
  refine ⟨rfl, rfl, ?_⟩
  unfold ane_model_init ane_fread ane_pread
  simp

theorem claim_C7_witness :
    (ane_fread (some [1, 2]) (fun _ => 7) 10).2 = 0 ∧
      (ane_pread (some [1, 2]) (fun _ => 7) 10 3 true).2 = 0 ∧
      (ane_model_init (some [1, 2]) true).isSome = true :=
  claim_C7_short_read [1, 2] (fun _ => 7) 10 3 (by decide)

/-- C10: ane_model_init zero-fills both the model container and the payload
buffer before reading into them, so after a load that succeeds despite a
short read, every header byte beyond the bytes actually read and every
payload byte beyond the bytes actually read is zero. -/
theorem claim_C10_zero_beyond_read (bytes : List Nat) (m : AneModel)
    (heq : ane_model_init (some bytes) true = some m) :
    (∀ i, min sizeof_anec bytes.length ≤ i → m.anecBytes i = 0) ∧
    (∀ i, min m.size (bytes.length - ANEC_SIZE) ≤ i → m.data i = 0) := by
  have hm : m = ⟨(freadBytes bytes (fun _ => 0) sizeof_anec).1,
      (freadBytes (bytes.drop ANEC_SIZE) (fun _ => 0)
        (le64At (freadBytes bytes (fun _ => 0) sizeof_anec).1 0)).1,
      le64At (freadBytes bytes (fun _ => 0) sizeof_anec).1 0⟩ := by
    have h := heq
    unfold ane_model_init ane_fread ane_pread at h
    simp at h
    exact h.symm
  subst hm
  constructor
  · intro i hi
    show (freadBytes bytes (fun _ => 0) sizeof_anec).1 i = 0
    simp only [freadBytes]
    rw [if_neg (by omega)]
  · intro i hi
    show (freadBytes (bytes.drop ANEC_SIZE) (fun _ => 0) _).1 i = 0
    have hi' : min (le64At (freadBytes bytes (fun _ => 0) sizeof_anec).1 0)
        (bytes.length - ANEC_SIZE) ≤ i := hi
    simp only [freadBytes] at hi'
    simp only [freadBytes]
    rw [if_neg (by rw [List.length_drop]; omega)]

theorem claim_C10_witness :
    (ane_model_init (some [1, 2, 3]) true).elim 0 (fun m => m.anecBytes 5) = 0 := by
  rcases hE : ane_model_init (some [1, 2, 3]) true with _ | m
  · rfl
  · have h := (claim_C10_zero_beyond_read [1, 2, 3] m hE).1 5 (by decide)
    simpa using h

end Ane
